import Mathlib

/-!
Verification development for the `vason` software rasterizer.

The raster engine (`src/canvas.rs`) operates on a flat row-major buffer of
packed 32-bit colors.  We embed the engine shallowly:

* the pixel buffer is a `List Nat` (packed colors are opaque values here);
* Rust `i32` coordinates become `Int` (the code clamps every coordinate
  before indexing, so index bounds never depend on wrap-around overflow);
* every buffer access goes through checked primitives returning
  `Except AccErr`, so "no out-of-bounds access" is the statement that an
  operation never returns `.error .oob`;
* loops whose termination is non-structural take a fuel argument and
  return `.error .fuel` on exhaustion (a fuel-limited run performs a
  prefix of the real run, which is enough for all bounds statements and,
  with sufficient fuel, for exact evaluation).
-/

namespace Vason

/-- Abort conditions of the embedded interpreter: an out-of-bounds buffer
access (which the Rust code must never perform), or fuel exhaustion of the
embedding's fuel-limited loops. -/
inductive AccErr where
  | oob
  | fuel
deriving DecidableEq, Repr

/-- Checked buffer read, `self.buffer[idx]`. -/
def bufGet (buf : List Nat) (i : Nat) : Except AccErr Nat :=
  match buf[i]? with
  | some v => .ok v
  | none => .error .oob

/-- Checked buffer write, `self.buffer[idx] = v` /
`*self.buffer.get_unchecked_mut(idx) = v`.  Modelling the unchecked write
with a checked one turns "the unchecked write is in bounds" into "the
operation never returns `.error .oob`". -/
def bufSet (buf : List Nat) (i : Nat) (v : Nat) : Except AccErr (List Nat) :=
  if i < buf.length then .ok (buf.set i v) else .error .oob

/-- `n` successive writes of `v` starting at index `a`:
the effect of Rust's `slice[a .. a+n].fill(v)`. -/
def listFill (v : Nat) : List Nat → Nat → Nat → List Nat
  | buf, _, 0 => buf
  | buf, a, n + 1 => listFill v (buf.set a v) (a + 1) n

/-- Checked span fill, `self.buffer[a..b].fill(v)` (Rust panics when the
range is invalid; that never happens in the engine). -/
def bufFillRange (buf : List Nat) (a b : Nat) (v : Nat) : Except AccErr (List Nat) :=
  if a ≤ b ∧ b ≤ buf.length then .ok (listFill v buf a (b - a)) else .error .oob

/-! ### Canvas dimensions -/

/-- `width.min(i32::MAX as usize) as i32` (`Canvas::new`). -/
def clamped_width (w : Nat) : Int := min (w : Int) (2 ^ 31 - 1)

/-- `height.min(i32::MAX as usize) as i32` (`Canvas::new`). -/
def clamped_height (h : Nat) : Int := min (h : Int) (2 ^ 31 - 1)

/-- Rust `i32::clamp(v, lo, hi)`.  Rust additionally asserts `lo ≤ hi`;
in the engine this only fails on zero-sized canvases, where the panic
happens before any buffer access, so a total model does not affect any
index-bounds statement. -/
def iclamp (v lo hi : Int) : Int := max lo (min v hi)

/-! ### Basic index bounds -/

/-! ### set_pixel -/

/-- `Canvas::set_pixel` (the bounds test followed by
`set_pixel_unchecked_raw_i32`). -/
def set_pixel (w h : Nat) (buf : List Nat) (x y : Int) (v : Nat) :
    Except AccErr (List Nat) :=
  if 0 ≤ x ∧ x < clamped_width w ∧ 0 ≤ y ∧ y < clamped_height h then
    bufSet buf (y.toNat * w + x.toNat) v
  else .ok buf

/-! ### hline / vline -/

/-- `Canvas::hline`. -/
def hline (w h : Nat) (buf : List Nat) (y x1 x2 : Int) (v : Nat) :
    Except AccErr (List Nat) :=
  if 0 ≤ y ∧ y < clamped_height h then
    let p := if x1 > x2 then (x2, x1) else (x1, x2)
    let from_x := iclamp p.1 0 (clamped_width w - 1)
    let to_x := iclamp (p.2 + 1) from_x (clamped_width w)
    let offset := y.toNat * w
    bufFillRange buf (offset + from_x.toNat) (offset + to_x.toNat) v
  else .ok buf

/-- Column of `n` unchecked writes at `(x, y), (x, y+1), …` — the loop body
of `Canvas::vline` (and of the vertical edges of `outline_rect`). -/
def vcol (w : Nat) (x v : Nat) : List Nat → Nat → Nat → Except AccErr (List Nat)
  | buf, _, 0 => .ok buf
  | buf, y, n + 1 =>
    match bufSet buf (y * w + x) v with
    | .error e => .error e
    | .ok b => vcol w x v b (y + 1) n

/-- `Canvas::vline`. -/
def vline (w h : Nat) (buf : List Nat) (x y1 y2 : Int) (v : Nat) :
    Except AccErr (List Nat) :=
  if 0 ≤ x ∧ x < clamped_width w then
    let p := if y1 > y2 then (y2, y1) else (y1, y2)
    let from_y := iclamp p.1 0 (clamped_height h - 1)
    let to_y := iclamp (p.2 + 1) from_y (clamped_height h)
    vcol w x.toNat v buf from_y.toNat (to_y - from_y).toNat
  else .ok buf

/-! ### fill_rect -/

/-- `Canvas::clamp_rect_i32`. -/
def clamp_rect_i32 (w h : Nat) (xmin xmax ymin ymax : Int) :
    Int × Int × Int × Int :=
  let from_x := iclamp xmin 0 (clamped_width w - 1)
  let to_x := iclamp xmax from_x (clamped_width w)
  let from_y := iclamp ymin 0 (clamped_height h - 1)
  let to_y := iclamp ymax from_y (clamped_height h)
  (from_x, to_x, from_y, to_y)

/-- Row loop of `Canvas::fill_rect`: fill `[a, b)`, advance both ends by
the stride, `n` times. -/
def fillRows (w v : Nat) : List Nat → Nat → Nat → Nat → Except AccErr (List Nat)
  | buf, _, _, 0 => .ok buf
  | buf, a, b, n + 1 =>
    match bufFillRange buf a b v with
    | .error e => .error e
    | .ok bb => fillRows w v bb (a + w) (b + w) n

/-- `Canvas::fill_rect`. -/
def fill_rect (w h : Nat) (buf : List Nat) (x y rw rh : Int) (v : Nat) :
    Except AccErr (List Nat) :=
  let c := clamp_rect_i32 w h x (x + rw) y (y + rh)
  let from_x := c.1
  let to_x := c.2.1
  let from_y := c.2.2.1
  let to_y := c.2.2.2
  let offset := from_y.toNat * w
  fillRows w v buf (offset + from_x.toNat) (offset + to_x.toNat)
    (to_y - from_y).toNat

/-! ### outline_rect -/

/-- `Canvas::outline_rect`. -/
def outline_rect (w h : Nat) (buf : List Nat) (x y rw rh : Int) (v : Nat) :
    Except AccErr (List Nat) :=
  if rw ≤ 0 ∨ rh ≤ 0 then .ok buf
  else
    let cw := clamped_width w
    let ch := clamped_height h
    let x1 := x
    let x2 := x + rw - 1
    let y1 := y
    let y2 := y + rh - 1
    let step1 : Except AccErr (List Nat) :=
      if x2 ≥ 0 ∧ y1 < ch then
        let from_x := iclamp x1 0 (cw - 1)
        let to_x := min (x2 + 1) cw
        let r1 : Except AccErr (List Nat) :=
          if 0 ≤ y1 then
            bufFillRange buf (y1.toNat * w + from_x.toNat) (y1.toNat * w + to_x.toNat) v
          else .ok buf
        match r1 with
        | .error e => .error e
        | .ok b1 =>
          if 0 ≤ y2 ∧ y2 < ch then
            bufFillRange b1 (y2.toNat * w + from_x.toNat) (y2.toNat * w + to_x.toNat) v
          else .ok b1
      else .ok buf
    match step1 with
    | .error e => .error e
    | .ok b2 =>
      if y2 ≥ 0 ∧ x1 < cw then
        let from_y := iclamp y1 0 (ch - 1)
        let to_y := min y2 ch
        let r2 : Except AccErr (List Nat) :=
          if 0 ≤ x1 then vcol w x1.toNat v b2 from_y.toNat (to_y - from_y).toNat
          else .ok b2
        match r2 with
        | .error e => .error e
        | .ok b3 =>
          if 0 ≤ x2 ∧ x2 < cw then
            vcol w x2.toNat v b3 from_y.toNat (to_y - from_y).toNat
          else .ok b3
      else .ok b2

/-! ### line (Bresenham) -/

/-- Two's-complement wrap-around of an `i32` arithmetic result (Rust's
release-profile overflow semantics). -/
def wrap32 (a : Int) : Int := (a + 2 ^ 31) % 2 ^ 32 - 2 ^ 31

/-- Loop of `Canvas::line`: state `(x1, y1, err)`; each iteration plots the
current point when inside the canvas, stops at `(x2, y2)`, otherwise steps
`x` and/or `y` by the error-term rule.  Every `i32` operation
(`2 * err`, the error updates and the coordinate steps) wraps. -/
def lineLoop (w h : Nat) (x2 y2 dx dy sx sy : Int) (v : Nat) :
    Nat → List Nat → Int → Int → Int → Except AccErr (List Nat)
  | 0, _, _, _, _ => .error .fuel
  | fuel + 1, buf, x1, y1, err =>
    let plot : Except AccErr (List Nat) :=
      if 0 ≤ x1 ∧ x1 < clamped_width w ∧ 0 ≤ y1 ∧ y1 < clamped_height h then
        bufSet buf (y1.toNat * w + x1.toNat) v
      else .ok buf
    match plot with
    | .error e => .error e
    | .ok buf =>
      if x1 = x2 ∧ y1 = y2 then .ok buf
      else
        let e2 := wrap32 (2 * err)
        let p := if e2 ≥ dy then (wrap32 (err + dy), wrap32 (x1 + sx))
                 else (err, x1)
        let q := if e2 ≤ dx then (wrap32 (p.1 + dx), wrap32 (y1 + sy))
                 else (p.1, y1)
        lineLoop w h x2 y2 dx dy sx sy v fuel buf p.2 q.2 q.1

/-- `Canvas::line` (`(x2 - x1).abs()` and its negation are `i32`
operations and wrap as well). -/
def line (w h : Nat) (buf : List Nat) (x1 y1 x2 y2 : Int) (v : Nat)
    (fuel : Nat) : Except AccErr (List Nat) :=
  let dx := wrap32 |wrap32 (x2 - x1)|
  let sx : Int := if x1 < x2 then 1 else -1
  let dy := wrap32 (-(wrap32 |wrap32 (y2 - y1)|))
  let sy : Int := if y1 < y2 then 1 else -1
  lineLoop w h x2 y2 dx dy sx sy v fuel buf x1 y1 (wrap32 (dx + dy))

/-- Loop of `Canvas::fill_circle`: one iteration emits the two clipped
spans at rows `y ∓ j`, then advances `(i, j, err)` by the midpoint rule,
stopping once `i ≥ 0`. -/
def circleFillLoop (w h : Nat) (x y : Int) (v : Nat) :
    Nat → List Nat → Int → Int → Int → Except AccErr (List Nat)
  | 0, _, _, _, _ => .error .fuel
  | fuel + 1, buf, i, j, err =>
    let cw := clamped_width w
    let ch := clamped_height h
    let y1 := y - j
    let y2 := y + j
    let from_x := iclamp (x + i) 0 (cw - 1)
    let to_x := iclamp (x - i) from_x cw
    let s1 : Except AccErr (List Nat) :=
      if 0 ≤ y1 ∧ y1 < ch then
        bufFillRange buf (y1.toNat * w + from_x.toNat) (y1.toNat * w + to_x.toNat) v
      else .ok buf
    match s1 with
    | .error e => .error e
    | .ok buf =>
      let s2 : Except AccErr (List Nat) :=
        if 0 ≤ y2 ∧ y2 < ch then
          bufFillRange buf (y2.toNat * w + from_x.toNat) (y2.toNat * w + to_x.toNat) v
        else .ok buf
      match s2 with
      | .error e => .error e
      | .ok buf =>
        let r := err
        let p := if r ≤ j then (j + 1, err + (j + 1) * 2 + 1) else (j, err)
        let q := if r > i ∨ p.2 > p.1 then (i + 1, p.2 + (i + 1) * 2 + 1) else (i, p.2)
        if q.1 ≥ 0 then .ok buf
        else circleFillLoop w h x y v fuel buf q.1 p.1 q.2

/-- `Canvas::fill_circle`. -/
def fill_circle (w h : Nat) (buf : List Nat) (x y r : Int) (v : Nat)
    (fuel : Nat) : Except AccErr (List Nat) :=
  if r < 1 then .ok buf
  else circleFillLoop w h x y v fuel buf (-r) 0 (2 - 2 * r)

/-- Loop of `Canvas::outline_circle`: same `(i, j, err)` recurrence as
`circleFillLoop`, but emitting up to four boundary points per iteration. -/
def circleOutlineLoop (w h : Nat) (x y : Int) (v : Nat) :
    Nat → List Nat → Int → Int → Int → Except AccErr (List Nat)
  | 0, _, _, _, _ => .error .fuel
  | fuel + 1, buf, i, j, err =>
    let cw := clamped_width w
    let ch := clamped_height h
    let x1 := x - i
    let x2 := x + i
    let y1 := y - j
    let y2 := y + j
    let w1 : Except AccErr (List Nat) :=
      if 0 ≤ x1 ∧ x1 < cw ∧ 0 ≤ y1 ∧ y1 < ch then
        bufSet buf (y1.toNat * w + x1.toNat) v
      else .ok buf
    match w1 with
    | .error e => .error e
    | .ok buf =>
      let w2 : Except AccErr (List Nat) :=
        if 0 ≤ x1 ∧ x1 < cw ∧ 0 ≤ y2 ∧ y2 < ch then
          bufSet buf (y2.toNat * w + x1.toNat) v
        else .ok buf
      match w2 with
      | .error e => .error e
      | .ok buf =>
        let w3 : Except AccErr (List Nat) :=
          if 0 ≤ x2 ∧ x2 < cw ∧ 0 ≤ y1 ∧ y1 < ch then
            bufSet buf (y1.toNat * w + x2.toNat) v
          else .ok buf
        match w3 with
        | .error e => .error e
        | .ok buf =>
          let w4 : Except AccErr (List Nat) :=
            if 0 ≤ x2 ∧ x2 < cw ∧ 0 ≤ y2 ∧ y2 < ch then
              bufSet buf (y2.toNat * w + x2.toNat) v
            else .ok buf
          match w4 with
          | .error e => .error e
          | .ok buf =>
            let r := err
            let p := if r ≤ j then (j + 1, err + (j + 1) * 2 + 1) else (j, err)
            let q := if r > i ∨ p.2 > p.1 then (i + 1, p.2 + (i + 1) * 2 + 1) else (i, p.2)
            if q.1 ≥ 0 then .ok buf
            else circleOutlineLoop w h x y v fuel buf q.1 p.1 q.2

/-- `Canvas::outline_circle`. -/
def outline_circle (w h : Nat) (buf : List Nat) (x y r : Int) (v : Nat)
    (fuel : Nat) : Except AccErr (List Nat) :=
  if r < 1 then .ok buf
  else circleOutlineLoop w h x y v fuel buf (-r) 0 (2 - 2 * r)

/-! ### ellipses -/

/-- Main loop of `Canvas::fill_ellipse`: spans at rows `y ∓ j` plus the
64-bit (`Int` here) midpoint-ellipse error recurrence; returns the final
`j` for the trailing minor-axis loop. -/
def ellipseFillLoop (w h : Nat) (x y a2 b2 : Int) (v : Nat) :
    Nat → List Nat → Int → Int → Int → Except AccErr (List Nat × Int)
  | 0, _, _, _, _ => .error .fuel
  | fuel + 1, buf, i, j, err =>
    let cw := clamped_width w
    let ch := clamped_height h
    let y1 := y - j
    let y2 := y + j
    let from_x := iclamp (x + i) 0 (cw - 1)
    let to_x := iclamp (x - i) from_x cw
    let s1 : Except AccErr (List Nat) :=
      if 0 ≤ y1 ∧ y1 < ch then
        bufFillRange buf (y1.toNat * w + from_x.toNat) (y1.toNat * w + to_x.toNat) v
      else .ok buf
    match s1 with
    | .error e => .error e
    | .ok buf =>
      let s2 : Except AccErr (List Nat) :=
        if 0 ≤ y2 ∧ y2 < ch then
          bufFillRange buf (y2.toNat * w + from_x.toNat) (y2.toNat * w + to_x.toNat) v
        else .ok buf
      match s2 with
      | .error e => .error e
      | .ok buf =>
        let e2 := 2 * err
        let p := if e2 ≥ (i * 2 + 1) * b2 then (i + 1, err + ((i + 1) * 2 + 1) * b2)
                 else (i, err)
        let q := if e2 ≤ (j * 2 + 1) * a2 then (j + 1, p.2 + ((j + 1) * 2 + 1) * a2)
                 else (j, p.2)
        if p.1 > 0 then .ok (buf, q.1)
        else ellipseFillLoop w h x y a2 b2 v fuel buf p.1 q.1 q.2

/-- Trailing loop of `Canvas::fill_ellipse` (`while j < b`): single pixels
along the minor axis, `n = (b - j).toNat` iterations. -/
def ellipseTail (w h : Nat) (x y : Int) (v : Nat) :
    List Nat → Int → Nat → Except AccErr (List Nat)
  | buf, _, 0 => .ok buf
  | buf, j, n + 1 =>
    let cw := clamped_width w
    let ch := clamped_height h
    let j := j + 1
    let step : Except AccErr (List Nat) :=
      if 0 ≤ x ∧ x < cw then
        let y1 := y + j
        let y2 := y - j
        let s1 : Except AccErr (List Nat) :=
          if 0 ≤ y1 ∧ y1 < ch then bufSet buf (y1.toNat * w + x.toNat) v else .ok buf
        match s1 with
        | .error e => .error e
        | .ok b =>
          if 0 ≤ y2 ∧ y2 < ch then bufSet b (y2.toNat * w + x.toNat) v else .ok b
      else .ok buf
    match step with
    | .error e => .error e
    | .ok buf => ellipseTail w h x y v buf j n

/-- `Canvas::fill_ellipse`. -/
def fill_ellipse (w h : Nat) (buf : List Nat) (x y a b : Int) (v : Nat)
    (fuel : Nat) : Except AccErr (List Nat) :=
  if a < 1 ∨ b < 1 then .ok buf
  else
    let b2 := b * b
    let a2 := a * a
    let err := (-a) * (2 * b2 + (-a)) + b2
    match ellipseFillLoop w h x y a2 b2 v fuel buf (-a) 0 err with
    | .error e => .error e
    | .ok p => ellipseTail w h x y v p.1 p.2 (b - p.2).toNat

/-! ### triangles and thick lines

`fill_triangle` and `thick_line` use `f64` in the Rust source.  The
embedding models the float values as exact rationals (`Fq`, a
numerator/positive-denominator pair over `Int`); square roots use an
integer square root and division by zero yields 0 (the value Rust's
`NaN as i32` / saturating cast produces where it matters).  This is exact
whenever every intermediate `f64` value is exactly representable and every
square-root argument is a perfect square — which holds at every input at
which these definitions are evaluated in the theorems below. -/

/-- Exact rational standing in for an `f64` value: numerator over a
positive denominator (not necessarily reduced). -/
structure Fq where
  num : Int
  den : Int
deriving DecidableEq, Repr

/-- Embed an integer (`f64::from(i)`). -/
def fqOfInt (n : Int) : Fq := ⟨n, 1⟩

/-- `f64` addition. -/
def fqAdd (a b : Fq) : Fq := ⟨a.num * b.den + b.num * a.den, a.den * b.den⟩

/-- `f64` multiplication. -/
def fqMul (a b : Fq) : Fq := ⟨a.num * b.num, a.den * b.den⟩

/-- `f64` negation. -/
def fqNeg (a : Fq) : Fq := ⟨-a.num, a.den⟩

/-- `f64` division; division by zero returns 0 (standing in for the
`±inf`/`NaN` propagation whose only observable use here is the
`as i32`/`as usize` cast, which sends those to the same results the model
produces at the evaluated inputs). -/
def fqDiv (a b : Fq) : Fq :=
  if b.num = 0 then ⟨0, 1⟩
  else if b.num < 0 then ⟨-(a.num * b.den), a.den * (-b.num)⟩
  else ⟨a.num * b.den, a.den * b.num⟩

/-- `f64` comparison `<`. -/
def fqLt (a b : Fq) : Bool := decide (a.num * b.den < b.num * a.den)

/-- Floor of an `Fq` value. -/
def fqFloor (a : Fq) : Int := Int.fdiv a.num a.den

/-- `f64::max`. -/
def fqMax (a b : Fq) : Fq := if fqLt a b then b else a

/-- Integer square root by bounded search (kernel-computable). -/
def isqrt (n : Nat) : Nat :=
  ((List.range (n + 1)).filter (fun k => k * k ≤ n)).length - 1

/-- `f64::sqrt` on an integer-valued `Fq`, exact for perfect squares. -/
def fqSqrt (q : Fq) : Fq := ⟨(isqrt q.num.toNat : Nat), 1⟩

/-- Rust `f64 as usize` (truncation toward zero, saturating at 0). -/
def f2u (q : Fq) : Nat := if fqLt q ⟨0, 1⟩ then 0 else (fqFloor q).toNat

/-- Rust `f64 as i32` (truncation toward zero). -/
def f2i (q : Fq) : Int :=
  if fqLt q ⟨0, 1⟩ then -(fqFloor (fqNeg q)) else fqFloor q

/-- One scan line of `Canvas::fill_triangle`: the two inclusive-range span
fills with their emptiness tests. -/
def triRow (v : Nat) (cw : Int) (buf : List Nat) (offset : Nat)
    (xf xt : Fq) : Except AccErr (List Nat) :=
  let from_x := f2u (fqMax xf ⟨0, 1⟩)
  let to_x : Nat := if fqLt xt (fqOfInt cw) then f2u xt else (cw - 1).toNat
  let s1 : Except AccErr (List Nat) :=
    if from_x > to_x then .ok buf
    else bufFillRange buf (offset + from_x) (offset + to_x + 1) v
  match s1 with
  | .error e => .error e
  | .ok buf =>
    let from_x2 := f2u (fqMax xt ⟨0, 1⟩)
    let to_x2 : Nat := if fqLt xf (fqOfInt cw) then f2u xf else cw.toNat - 1
    if from_x2 > to_x2 then .ok buf
    else bufFillRange buf (offset + from_x2) (offset + to_x2 + 1) v

/-- Scan-line loop of `Canvas::fill_triangle` (`for y in y1..=…`). -/
def triLoop (w : Nat) (v : Nat) (y2s : Int) (dxFar dxUpper dxLow : Fq) :
    List Nat → Int → Nat → Fq → Fq → Except AccErr (List Nat)
  | buf, _, 0, _, _ => .ok buf
  | buf, yCur, n + 1, xf, xt =>
    let step : Except AccErr (List Nat) :=
      if yCur ≥ 0 then triRow v (clamped_width w) buf (yCur.toNat * w) xf xt
      else .ok buf
    match step with
    | .error e => .error e
    | .ok buf =>
      let xf := fqAdd xf dxFar
      let xt := fqAdd xt (if yCur < y2s then dxUpper else dxLow)
      triLoop w v y2s dxFar dxUpper dxLow buf (yCur + 1) n xf xt

/-- `Canvas::fill_triangle`. -/
def fill_triangle (w h : Nat) (buf : List Nat) (x1 y1 x2 y2 x3 y3 : Int)
    (v : Nat) : Except AccErr (List Nat) :=
  let p := if y2 > y3 then ((x3, y3), (x2, y2)) else ((x2, y2), (x3, y3))
  let q := if y1 > p.1.2 then (p.1, (x1, y1)) else ((x1, y1), p.1)
  let r := if q.2.2 > p.2.2 then (p.2, q.2) else (q.2, p.2)
  let va := q.1
  let vb := r.1
  let vc := r.2
  let dxFar := fqDiv (fqOfInt (vc.1 - va.1)) (fqOfInt (vc.2 - va.2 + 1))
  let dxUpper := fqDiv (fqOfInt (vb.1 - va.1)) (fqOfInt (vb.2 - va.2 + 1))
  let dxLow := fqDiv (fqOfInt (vc.1 - vb.1)) (fqOfInt (vc.2 - vb.2 + 1))
  let xf := fqOfInt va.1
  let xt := fqAdd xf dxUpper
  let n := (min vc.2 (clamped_height h - 1) - va.2 + 1).toNat
  triLoop w v vb.2 dxFar dxUpper dxLow buf va.2 n xf xt

/-- `Canvas::thick_line`. -/
def thick_line (w h : Nat) (buf : List Nat) (x1 y1 x2 y2 t : Int) (v : Nat)
    (fuel : Nat) : Except AccErr (List Nat) :=
  if t < 0 then .ok buf
  else if t = 1 then line w h buf x1 y1 x2 y2 v fuel
  else
    let dx := fqOfInt (x2 - x1)
    let dy := fqOfInt (y2 - y1)
    let length := fqSqrt (fqAdd (fqMul dx dx) (fqMul dy dy))
    let halfT := fqMul (fqOfInt t) ⟨1, 2⟩
    let px := f2i (fqMul (fqDiv (fqNeg dy) length) halfT)
    let py := f2i (fqMul (fqDiv dx length) halfT)
    match fill_triangle w h buf (x1 + px) (y1 + py) (x1 - px) (y1 - py)
        (x2 + px) (y2 + py) v with
    | .error e => .error e
    | .ok buf =>
      fill_triangle w h buf (x1 - px) (y1 - py) (x2 - px) (y2 - py)
        (x2 + px) (y2 + py) v

/-- The `while y != 0 && buffer[(y-1)*w+x] == seed` walk of
`flood_fill_start`. -/
def walkUp (w seed : Nat) (buf : List Nat) (x : Nat) : Nat → Except AccErr Nat
  | 0 => .ok 0
  | y + 1 =>
    match bufGet buf (y * w + x) with
    | .error e => .error e
    | .ok p => if p = seed then walkUp w seed buf x y else .ok (y + 1)

/-- The `while x != 0 && buffer[y*w+(x-1)] == seed` walk of
`flood_fill_start`. -/
def walkLeft (seed : Nat) (buf : List Nat) (yOff : Nat) : Nat → Except AccErr Nat
  | 0 => .ok 0
  | x + 1 =>
    match bufGet buf (yOff + x) with
    | .error e => .error e
    | .ok p => if p = seed then walkLeft seed buf yOff x else .ok (x + 1)

/-- The seek loop of `flood_fill_start`: repeat both walks until neither
moves.  `x + y + 1` fuel always suffices, since every non-final iteration
decreases `x + y`. -/
def seekLoop (w seed : Nat) (buf : List Nat) :
    Nat → Nat → Nat → Except AccErr (Nat × Nat)
  | 0, _, _ => .error .fuel
  | f + 1, x, y =>
    match walkUp w seed buf x y with
    | .error e => .error e
    | .ok y' =>
      match walkLeft seed buf (y' * w) x with
      | .error e => .error e
      | .ok x' =>
        if x' = x ∧ y' = y then .ok (x, y)
        else seekLoop w seed buf f x' y'

/-- The skip loop at the top of `flood_fill_core`'s row iteration
(`last_row_len -= 1; if 0 return; x += 1; …`); `none` models the early
`return`. -/
def skipLoop (seed : Nat) (buf : List Nat) (yOff : Nat) :
    Nat → Nat → Except AccErr (Option (Nat × Nat))
  | _, 0 => .ok none
  | x, last + 1 =>
    if last = 0 then .ok none
    else
      match bufGet buf (yOff + (x + 1)) with
      | .error e => .error e
      | .ok p =>
        if p = seed then .ok (some (x + 1, last))
        else skipLoop seed buf yOff (x + 1) last

/-- The rightward extension loop of `flood_fill_core`
(`while sx < width && buffer[y*w+sx] == seed`). -/
def fillRight (w seed raw : Nat) (yOff : Nat) (fuelk : Nat) (buf : List Nat)
    (sx rl : Nat) : Except AccErr (List Nat × Nat × Nat) :=
  if sx < w then
    match bufGet buf (yOff + sx) with
    | .error e => .error e
    | .ok p =>
      if p = seed then
        match bufSet buf (yOff + sx) raw with
        | .error e => .error e
        | .ok b =>
          match fuelk with
          | 0 => .error .fuel
          | k + 1 => fillRight w seed raw yOff k b (sx + 1) (rl + 1)
      else .ok (buf, sx, rl)
  else .ok (buf, sx, rl)

/-- Pending call of the mutually recursive region fill
(`flood_fill_start` / `flood_fill_core` and its inner loops), written as a
defunctionalized call tag so the whole recursion is a single
fuel-structural function that the kernel can evaluate. -/
inductive FFCall where
  | start (buf : List Nat) (x y : Nat)
  | row (buf : List Nat) (x y last : Nat)
  | rowRest (buf : List Nat) (x y sx rl last : Nat)
  | left (buf : List Nat) (x y rl last : Nat)
  | below (buf : List Nat) (y sx endv : Nat)
  | above (buf : List Nat) (yA ux sxEnd : Nat)

/-- The mutually recursive part of the flood fill.  Results are uniformly
`(buffer, a, b, c)`; the three numeric components are meaningful only for
`left` calls (the updated `x`, `row_len`, `last_row_len` of the leftward
extension loop) and are zero otherwise.

* `start buf x y` — `flood_fill_start`: seek the up/left origin, then scan.
* `row buf x y last` — one iteration of `flood_fill_core`'s outer row loop.
* `rowRest` — the row's rightward extension, the two run-comparison spawn
  loops and the advance to the next row.
* `left` — the leftward extension loop (recolors and spawns `start` on
  seed-colored pixels directly above).
* `below` — the `row_len < last_row_len` spawn loop (spawns core scans).
* `above` — the `row_len > last_row_len` spawn loop (spawns `start`s). -/
def ffGo (w h seed raw : Nat) : Nat → FFCall → Except AccErr (List Nat × Nat × Nat × Nat)
  | 0, _ => .error .fuel
  | fuel + 1, .start buf x y =>
    match seekLoop w seed buf (x + y + 1) x y with
    | .error e => .error e
    | .ok p => ffGo w h seed raw fuel (.row buf p.1 p.2 0)
  | fuel + 1, .row buf x y last =>
    let entry : Except AccErr Bool :=
      if last = 0 then .ok false
      else
        match bufGet buf (y * w + x) with
        | .error e => .error e
        | .ok p => .ok (decide (p ≠ seed))
    match entry with
    | .error e => .error e
    | .ok true =>
      match skipLoop seed buf (y * w) x last with
      | .error e => .error e
      | .ok none => .ok (buf, 0, 0, 0)
      | .ok (some p) => ffGo w h seed raw fuel (.rowRest buf p.1 y p.1 0 p.2)
    | .ok false =>
      match ffGo w h seed raw fuel (.left buf x y 0 last) with
      | .error e => .error e
      | .ok q => ffGo w h seed raw fuel (.rowRest q.1 q.2.1 y x q.2.2.1 q.2.2.2)
  | fuel + 1, .rowRest buf x y sx rl last =>
    match fillRight w seed raw (y * w) (w - sx) buf sx rl with
    | .error e => .error e
    | .ok t =>
      let spawned : Except AccErr (List Nat × Nat × Nat × Nat) :=
        if t.2.2 < last then
          ffGo w h seed raw fuel (.below t.1 y t.2.1 (x + last))
        else if t.2.2 > last ∧ y ≠ 0 then
          ffGo w h seed raw fuel (.above t.1 (y - 1) (x + last) t.2.1)
        else .ok (t.1, 0, 0, 0)
      match spawned with
      | .error e => .error e
      | .ok s =>
        if t.2.2 = 0 ∨ y + 1 ≥ h then .ok (s.1, 0, 0, 0)
        else ffGo w h seed raw fuel (.row s.1 x (y + 1) t.2.2)
  | fuel + 1, .left buf x y rl last =>
    if x = 0 then .ok (buf, x, rl, last)
    else
      match bufGet buf (y * w + (x - 1)) with
      | .error e => .error e
      | .ok p =>
        if p ≠ seed then .ok (buf, x, rl, last)
        else
          match bufSet buf (y * w + (x - 1)) raw with
          | .error e => .error e
          | .ok buf =>
            let above : Except AccErr (List Nat × Nat × Nat × Nat) :=
              if y ≠ 0 then
                match bufGet buf ((y - 1) * w + (x - 1)) with
                | .error e => .error e
                | .ok q =>
                  if q = seed then
                    ffGo w h seed raw fuel (.start buf (x - 1) (y - 1))
                  else .ok (buf, 0, 0, 0)
              else .ok (buf, 0, 0, 0)
            match above with
            | .error e => .error e
            | .ok s => ffGo w h seed raw fuel (.left s.1 (x - 1) y (rl + 1) (last + 1))
  | fuel + 1, .below buf y sx endv =>
    if sx + 1 ≥ endv then .ok (buf, 0, 0, 0)
    else
      match bufGet buf (y * w + (sx + 1)) with
      | .error e => .error e
      | .ok p =>
        match (if p = seed then ffGo w h seed raw fuel (.row buf (sx + 1) y 0)
               else .ok (buf, 0, 0, 0)) with
        | .error e => .error e
        | .ok s => ffGo w h seed raw fuel (.below s.1 y (sx + 1) endv)
  | fuel + 1, .above buf yA ux sxEnd =>
    if ux + 1 ≥ sxEnd then .ok (buf, 0, 0, 0)
    else
      match bufGet buf (yA * w + (ux + 1)) with
      | .error e => .error e
      | .ok p =>
        match (if p = seed then ffGo w h seed raw fuel (.start buf (ux + 1) yA)
               else .ok (buf, 0, 0, 0)) with
        | .error e => .error e
        | .ok s => ffGo w h seed raw fuel (.above s.1 yA (ux + 1) sxEnd)

/-- `Canvas::flood_fill_start` (projected to the buffer). -/
def flood_fill_start (w h seed raw : Nat) (fuel : Nat) (buf : List Nat)
    (x y : Nat) : Except AccErr (List Nat) :=
  match ffGo w h seed raw fuel (.start buf x y) with
  | .error e => .error e
  | .ok s => .ok s.1

/-- `Canvas::flood_fill`. -/
def flood_fill (w h : Nat) (buf : List Nat) (x y : Int) (v : Nat)
    (fuel : Nat) : Except AccErr (List Nat) :=
  if 0 ≤ x ∧ x < clamped_width w ∧ 0 ≤ y ∧ y < clamped_height h then
    match bufGet buf (y.toNat * w + x.toNat) with
    | .error e => .error e
    | .ok seed =>
      if seed ≠ v then flood_fill_start w h seed v fuel buf x.toNat y.toNat
      else .ok buf
  else .ok buf

/-! ### Canvas construction -/

/-- The `Canvas` record built by `Canvas::new` (the two clamped dimensions
are derived data, recomputed by `clamped_width` / `clamped_height`). -/
structure CanvasSt where
  buffer : List Nat
  width : Nat
  height : Nat
deriving DecidableEq, Repr

/-- Outcome of running `Canvas::new`.  The source aborts construction via
`assert!`, modelled by `panicked`; `errSizeMismatch` is the recoverable
error value the specification describes (a returned `SizeMismatch`), which
exists here only so that statements about the spec's error taxonomy can be
expressed — the translated source never produces it. -/
inductive MkResult where
  | ok (c : CanvasSt)
  | panicked
  | errSizeMismatch
deriving DecidableEq, Repr

/-- `Canvas::new` (`assert!(buffer.len() == width * height)` followed by
the struct literal). -/
def canvas_new (buffer : List Nat) (width height : Nat) : MkResult :=
  if buffer.length = width * height then .ok ⟨buffer, width, height⟩
  else .panicked

/-! ### PPM encoder (`src/ppm.rs`) -/

/-- ASCII bytes of `writeln!(w, "P6 {} {} 255", width, height)`. -/
def ppmHeader (width height : Nat) : List Nat :=
  ("P6 " ++ toString width ++ " " ++ toString height ++ " 255" ++ "\n").data.map
    Char.toNat

/-- Big-endian bytes of a `u32` (`u32::to_be_bytes`). -/
def u32be (p : Nat) : List Nat :=
  [p / 2 ^ 24 % 256, p / 2 ^ 16 % 256, p / 2 ^ 8 % 256, p % 256]

/-- `p.to_be_bytes().into_iter().skip(1)`: the R, G, B bytes of a packed
color, discarding the leading (alpha/unused) byte. -/
def pixelRGB (p : Nat) : List Nat := (u32be p).drop 1

/-- Structural worker for `buffer.chunks(2048)`; the fuel argument is the
list length, which strictly bounds the number of nonempty chunks. -/
def chunksAux : Nat → List Nat → List (List Nat)
  | _, [] => []
  | 0, _ :: _ => []
  | f + 1, a :: rest => (a :: rest).take 2048 :: chunksAux f ((a :: rest).drop 2048)

/-- `buffer.chunks(2048)`. -/
def chunks2048 (l : List Nat) : List (List Nat) := chunksAux l.length l

/-- Overwrite the first `bytes.length` entries of `tmp` (the
`enumerate().for_each(|(i, b)| tmp_buffer[i] = b)` step). -/
def writeInto (tmp bytes : List Nat) : List Nat :=
  bytes ++ tmp.drop bytes.length

/-- Chunk loop of `encode_buffer`: each chunk's RGB bytes are written into
the persistent 6144-byte temp buffer, and the whole temp buffer is emitted
(`w.write_all(&tmp_buffer)`). -/
def encodeChunks : List (List Nat) → List Nat → List Nat
  | [], _ => []
  | c :: cs, tmp =>
    let tmp' := writeInto tmp (c.flatMap pixelRGB)
    tmp' ++ encodeChunks cs tmp'

/-- `ppm::encode_buffer`: every byte the encoder writes, in order. -/
def encode_buffer (buffer : List Nat) (width height : Nat) : List Nat :=
  ppmHeader width height ++ encodeChunks (chunks2048 buffer) (List.replicate 6144 0)

/-! ### Canonical guarded painters (used to relate the Bresenham walk to
the span primitives) -/

/-- The effect of one guarded plot of the Bresenham loop: set `(x, y)`
when it lies inside the canvas, else leave the buffer unchanged. -/
def gset (w h : Nat) (v : Nat) (buf : List Nat) (x y : Int) : List Nat :=
  if 0 ≤ x ∧ x < clamped_width w ∧ 0 ≤ y ∧ y < clamped_height h then
    buf.set (y.toNat * w + x.toNat) v
  else buf

/-- Guarded plots of the column `(x, y0), (x, y0+1), …` (`n` points). -/
def colPaintUp (w h : Nat) (v : Nat) (x : Int) : List Nat → Int → Nat → List Nat
  | buf, _, 0 => buf
  | buf, y0, n + 1 => colPaintUp w h v x (gset w h v buf x y0) (y0 + 1) n

/-- Guarded plots of the column `(x, y0), (x, y0-1), …` (`n` points). -/
def colPaintDown (w h : Nat) (v : Nat) (x : Int) : List Nat → Int → Nat → List Nat
  | buf, _, 0 => buf
  | buf, y0, n + 1 => colPaintDown w h v x (gset w h v buf x y0) (y0 - 1) n

/-- Guarded plots of the row `(x0, y), (x0+1, y), …` (`n` points). -/
def rowPaintUp (w h : Nat) (v : Nat) (y : Int) : List Nat → Int → Nat → List Nat
  | buf, _, 0 => buf
  | buf, x0, n + 1 => rowPaintUp w h v y (gset w h v buf x0 y) (x0 + 1) n

/-- Guarded plots of the row `(x0, y), (x0-1, y), …` (`n` points). -/
def rowPaintDown (w h : Nat) (v : Nat) (y : Int) : List Nat → Int → Nat → List Nat
  | buf, _, 0 => buf
  | buf, x0, n + 1 => rowPaintDown w h v y (gset w h v buf x0 y) (x0 - 1) n

/-- Precondition of a flood-fill call: coordinates inside the canvas
dimensions, plus `x + last_row_len ≤ width` for row state. -/
def ffPre (w h : Nat) : FFCall → Prop
  | .start buf x y => buf.length = w * h ∧ x < w ∧ y < h
  | .row buf x y last => buf.length = w * h ∧ x < w ∧ y < h ∧ x + last ≤ w
  | .rowRest buf x y sx rl last => buf.length = w * h ∧ x < w ∧ y < h ∧
      x + rl = sx ∧ sx ≤ w ∧ x + last ≤ w
  | .left buf x y _ _ => buf.length = w * h ∧ x ≤ w ∧ y < h
  | .below buf y _ endv => buf.length = w * h ∧ y < h ∧ endv ≤ w
  | .above buf yA _ sxEnd => buf.length = w * h ∧ yA < h ∧ sxEnd ≤ w

/-- Safety of an interpreter result: no out-of-bounds access occurred
(an abort, if any, is fuel exhaustion) and a successful run preserves the
buffer length. -/
def SafeOk (len : Nat) : Except AccErr (List Nat) → Prop
  | .ok b => b.length = len
  | .error e => e = .fuel

/-! ## Lemmas -/

theorem listFill_length (v : Nat) :
    ∀ (buf : List Nat) (a n : Nat), (listFill v buf a n).length = buf.length := by
  intro buf a n
  induction n generalizing buf a with
  | zero => rfl
  | succ n ih => simpa [listFill] using ih (buf.set a v) (a + 1)

theorem bufSet_ok_length {buf b : List Nat} {i v : Nat}
    (h : bufSet buf i v = .ok b) : b.length = buf.length := by
  unfold bufSet at h
  split at h
  · cases h; simp
  · cases h

theorem bufFillRange_ok_length {buf b : List Nat} {a c v : Nat}
    (h : bufFillRange buf a c v = .ok b) : b.length = buf.length := by
  unfold bufFillRange at h
  split at h
  · cases h; exact listFill_length v buf a (c - a)
  · cases h

theorem bufSet_isOk {buf : List Nat} {i v : Nat} (h : i < buf.length) :
    bufSet buf i v = .ok (buf.set i v) := by
  unfold bufSet; simp [h]

theorem bufFillRange_isOk {buf : List Nat} {a b v : Nat}
    (hab : a ≤ b) (hb : b ≤ buf.length) :
    bufFillRange buf a b v = .ok (listFill v buf a (b - a)) := by
  unfold bufFillRange; simp [hab, hb]

theorem clamped_width_nonneg (w : Nat) : 0 ≤ clamped_width w := by
  unfold clamped_width
  have : (0 : Int) ≤ (w : Int) := Int.ofNat_nonneg w
  omega

theorem clamped_width_le (w : Nat) : clamped_width w ≤ (w : Int) := by
  unfold clamped_width; omega

theorem clamped_height_nonneg (h : Nat) : 0 ≤ clamped_height h := by
  unfold clamped_height
  have : (0 : Int) ≤ (h : Int) := Int.ofNat_nonneg h
  omega

theorem clamped_height_le (h : Nat) : clamped_height h ≤ (h : Int) := by
  unfold clamped_height; omega

theorem idx_lt_of_lt {yn xn w h : Nat} (hy : yn < h) (hx : xn < w) :
    yn * w + xn < h * w := by
  calc yn * w + xn < yn * w + w := by omega
    _ = (yn + 1) * w := by ring
    _ ≤ h * w := Nat.mul_le_mul_right w hy

theorem span_le_of_le {yn t w h : Nat} (hy : yn < h) (ht : t ≤ w) :
    yn * w + t ≤ h * w := by
  calc yn * w + t ≤ yn * w + w := by omega
    _ = (yn + 1) * w := by ring
    _ ≤ h * w := Nat.mul_le_mul_right w hy


theorem prop_ite {α : Type} {P : α → Prop} {c : Prop} [Decidable c]
    {a b : α} (ha : P a) (hb : P b) : P (if c then a else b) := by
  split <;> assumption

theorem safeOk_ite {len : Nat} {c : Prop} [Decidable c]
    {a b : Except AccErr (List Nat)} (ha : SafeOk len a) (hb : SafeOk len b) :
    SafeOk len (if c then a else b) := by
  split <;> assumption

theorem SafeOk.not_oob {len : Nat} {r : Except AccErr (List Nat)}
    (h : SafeOk len r) : r ≠ .error .oob := by
  cases r with
  | ok b => simp
  | error e => simp [SafeOk] at h; simp [h]

theorem safeOk_ok {len : Nat} {b : List Nat} (h : b.length = len) :
    SafeOk len (.ok b) := h

/-- A bounds-guarded unchecked pixel write is safe: the guard proves the
index in bounds. -/
theorem guardedSet_safe {w h : Nat} {buf : List Nat} (x y : Int) (v : Nat)
    (hlen : buf.length = w * h) :
    SafeOk (w * h)
      (if 0 ≤ x ∧ x < clamped_width w ∧ 0 ≤ y ∧ y < clamped_height h then
        bufSet buf (y.toNat * w + x.toNat) v
      else .ok buf) := by
  split
  · next hg =>
    obtain ⟨hx0, hxw, hy0, hyh⟩ := hg
    have hcw := clamped_width_le w
    have hch := clamped_height_le h
    have hxn : x.toNat < w := by omega
    have hyn : y.toNat < h := by omega
    have hidx : y.toNat * w + x.toNat < buf.length := by
      rw [hlen, Nat.mul_comm w h]
      exact idx_lt_of_lt hyn hxn
    rw [bufSet_isOk hidx]
    exact safeOk_ok (by simp [hlen])
  · exact safeOk_ok hlen

/-- A row span clipped to `[fx, tx) ⊆ [0, clamped_width)` at a row
`0 ≤ y < clamped_height` is safe. -/
theorem guardedSpan_safe {w h : Nat} {buf : List Nat} {y fx tx : Int}
    (v : Nat) (hlen : buf.length = w * h) (hy0 : 0 ≤ y)
    (hyh : y < clamped_height h) (hfx : 0 ≤ fx) (hle : fx ≤ tx)
    (htx : tx ≤ clamped_width w) :
    SafeOk (w * h)
      (bufFillRange buf (y.toNat * w + fx.toNat) (y.toNat * w + tx.toNat) v) := by
  have hcw := clamped_width_le w
  have hch := clamped_height_le h
  have hyn : y.toNat < h := by omega
  have htn : tx.toNat ≤ w := by omega
  have h1 : y.toNat * w + fx.toNat ≤ y.toNat * w + tx.toNat := by omega
  have h2 : y.toNat * w + tx.toNat ≤ buf.length := by
    rw [hlen, Nat.mul_comm w h]
    exact span_le_of_le hyn htn
  rw [bufFillRange_isOk h1 h2]
  exact safeOk_ok (by simp [listFill_length, hlen])

/-- C1 helper: `set_pixel` is safe. -/
theorem set_pixel_safe {w h : Nat} {buf : List Nat} (x y : Int) (v : Nat)
    (hlen : buf.length = w * h) : SafeOk (w * h) (set_pixel w h buf x y v) :=
  guardedSet_safe x y v hlen

/-- C1 helper: `hline` is safe. -/
theorem hline_safe {w h : Nat} {buf : List Nat} (y x1 x2 : Int) (v : Nat)
    (hlen : buf.length = w * h) : SafeOk (w * h) (hline w h buf y x1 x2 v) := by
  have hcw := clamped_width_nonneg w
  unfold hline
  split
  · next hg =>
    apply guardedSpan_safe v hlen hg.1 hg.2
    all_goals unfold iclamp; omega
  · exact safeOk_ok hlen

/-- C1 helper: a `vcol` column of unchecked writes staying above row `h`
is safe. -/
theorem vcol_safe {w h : Nat} (x v : Nat) :
    ∀ (n : Nat) (buf : List Nat) (y : Nat), buf.length = w * h →
      x < w → y + n ≤ h → SafeOk (w * h) (vcol w x v buf y n) := by
  intro n
  induction n with
  | zero => intro buf y hlen _ _; exact safeOk_ok hlen
  | succ n ih =>
    intro buf y hlen hx hyn
    have hy : y < h := by omega
    have hidx : y * w + x < buf.length := by
      rw [hlen, Nat.mul_comm w h]
      exact idx_lt_of_lt hy hx
    unfold vcol
    rw [bufSet_isOk hidx]
    exact ih _ (y + 1) (by simp [hlen]) hx (by omega)

/-- C1 helper: `vline` is safe. -/
theorem vline_safe {w h : Nat} {buf : List Nat} (x y1 y2 : Int) (v : Nat)
    (hlen : buf.length = w * h) : SafeOk (w * h) (vline w h buf x y1 y2 v) := by
  have hcw := clamped_width_le w
  have hch0 := clamped_height_nonneg h
  have hch := clamped_height_le h
  unfold vline
  split
  · next hg =>
    apply vcol_safe x.toNat v _ buf _ hlen (by omega)
    unfold iclamp
    omega
  · exact safeOk_ok hlen

/-- C1 helper: the row loop of `fill_rect` is safe provided the last row's
upper index fits in the buffer. -/
theorem fillRows_safe {w h : Nat} (v : Nat) :
    ∀ (n : Nat) (buf : List Nat) (a b : Nat), buf.length = w * h →
      a ≤ b → b + n * w ≤ w * h + w →
      SafeOk (w * h) (fillRows w v buf a b n) := by
  intro n
  induction n with
  | zero => intro buf a b hlen _ _; exact safeOk_ok hlen
  | succ n ih =>
    intro buf a b hlen hab hbound
    have hsm : (n + 1) * w = n * w + w := Nat.succ_mul n w
    have hb : b ≤ buf.length := by rw [hlen]; omega
    unfold fillRows
    rw [bufFillRange_isOk hab hb]
    exact ih _ (a + w) (b + w) (by simp [listFill_length, hlen]) (by omega)
      (by omega)

/-- Bounds of the four components of `clamp_rect_i32`. -/
theorem clamp_rect_i32_bounds (w h : Nat) (xmin xmax ymin ymax : Int) :
    0 ≤ (clamp_rect_i32 w h xmin xmax ymin ymax).1 ∧
    (clamp_rect_i32 w h xmin xmax ymin ymax).1 ≤
      (clamp_rect_i32 w h xmin xmax ymin ymax).2.1 ∧
    (clamp_rect_i32 w h xmin xmax ymin ymax).2.1 ≤ clamped_width w ∧
    0 ≤ (clamp_rect_i32 w h xmin xmax ymin ymax).2.2.1 ∧
    (clamp_rect_i32 w h xmin xmax ymin ymax).2.2.1 ≤
      (clamp_rect_i32 w h xmin xmax ymin ymax).2.2.2 ∧
    (clamp_rect_i32 w h xmin xmax ymin ymax).2.2.2 ≤ clamped_height h := by
  have hcw := clamped_width_nonneg w
  have hch := clamped_height_nonneg h
  simp only [clamp_rect_i32, iclamp]
  refine ⟨by omega, by omega, by omega, by omega, by omega, by omega⟩

/-- C1 helper: `fill_rect` is safe. -/
theorem fill_rect_safe {w h : Nat} {buf : List Nat} (x y rw rh : Int)
    (v : Nat) (hlen : buf.length = w * h) :
    SafeOk (w * h) (fill_rect w h buf x y rw rh v) := by
  obtain ⟨h1, h2, h3, h4, h5, h6⟩ :=
    clamp_rect_i32_bounds w h x (x + rw) y (y + rh)
  have hcw := clamped_width_le w
  have hch := clamped_height_le h
  unfold fill_rect
  apply fillRows_safe v _ buf _ _ hlen (by omega)
  set fx := (clamp_rect_i32 w h x (x + rw) y (y + rh)).1
  set tx := (clamp_rect_i32 w h x (x + rw) y (y + rh)).2.1
  set fy := (clamp_rect_i32 w h x (x + rw) y (y + rh)).2.2.1
  set ty := (clamp_rect_i32 w h x (x + rw) y (y + rh)).2.2.2
  have e1 : (ty - fy).toNat * w + fy.toNat * w = ty.toNat * w := by
    rw [← Nat.add_mul]
    congr 1
    omega
  have e2 : ty.toNat * w ≤ h * w := Nat.mul_le_mul_right w (by omega)
  have e3 : h * w = w * h := Nat.mul_comm h w
  have e4 : tx.toNat ≤ w := by omega
  omega

/-- Existential form of `guardedSet_safe`: a guarded unchecked write
always succeeds, preserving the length. -/
theorem guardedSet_ok {w h : Nat} {buf : List Nat} (x y : Int) (v : Nat)
    (hlen : buf.length = w * h) :
    ∃ b, (if 0 ≤ x ∧ x < clamped_width w ∧ 0 ≤ y ∧ y < clamped_height h then
        bufSet buf (y.toNat * w + x.toNat) v
      else .ok buf) = .ok b ∧ b.length = w * h := by
  split
  · next hg =>
    have hcw := clamped_width_le w
    have hch := clamped_height_le h
    have hxn : x.toNat < w := by omega
    have hyn : y.toNat < h := by omega
    have hidx : y.toNat * w + x.toNat < buf.length := by
      rw [hlen, Nat.mul_comm w h]
      exact idx_lt_of_lt hyn hxn
    exact ⟨buf.set _ v, bufSet_isOk hidx, by simp [hlen]⟩
  · exact ⟨buf, rfl, hlen⟩

/-- Existential form of `guardedSpan_safe`: a row-guarded clipped span
fill always succeeds, preserving the length. -/
theorem guardedRowSpan_ok {w h : Nat} {buf : List Nat} (y fx tx : Int)
    (v : Nat) (hlen : buf.length = w * h) (hfx : 0 ≤ fx) (hle : fx ≤ tx)
    (htx : tx ≤ clamped_width w) :
    ∃ b, (if 0 ≤ y ∧ y < clamped_height h then
        bufFillRange buf (y.toNat * w + fx.toNat) (y.toNat * w + tx.toNat) v
      else .ok buf) = .ok b ∧ b.length = w * h := by
  split
  · next hg =>
    have hcw := clamped_width_le w
    have hch := clamped_height_le h
    have hyn : y.toNat < h := by omega
    have htn : tx.toNat ≤ w := by omega
    have h1 : y.toNat * w + fx.toNat ≤ y.toNat * w + tx.toNat := by omega
    have h2 : y.toNat * w + tx.toNat ≤ buf.length := by
      rw [hlen, Nat.mul_comm w h]
      exact span_le_of_le hyn htn
    exact ⟨_, bufFillRange_isOk h1 h2, by simp [listFill_length, hlen]⟩
  · exact ⟨buf, rfl, hlen⟩

/-- C1 helper: the Bresenham loop is safe for any state: every plot is
bounds-guarded. -/
theorem lineLoop_safe {w h : Nat} (x2 y2 dx dy sx sy : Int) (v : Nat) :
    ∀ (fuel : Nat) (buf : List Nat) (x1 y1 err : Int),
      buf.length = w * h →
      SafeOk (w * h) (lineLoop w h x2 y2 dx dy sx sy v fuel buf x1 y1 err) := by
  intro fuel
  induction fuel with
  | zero => intro buf x1 y1 err hlen; exact rfl
  | succ fuel ih =>
    intro buf x1 y1 err hlen
    obtain ⟨b, hb, hblen⟩ := guardedSet_ok (w := w) (h := h) x1 y1 v hlen
    unfold lineLoop
    rw [hb]
    split
    · exact safeOk_ok hblen
    · exact ih b _ _ _ hblen

/-- C1 helper: `line` is safe. -/
theorem line_safe {w h : Nat} {buf : List Nat} (x1 y1 x2 y2 : Int) (v : Nat)
    (fuel : Nat) (hlen : buf.length = w * h) :
    SafeOk (w * h) (line w h buf x1 y1 x2 y2 v fuel) :=
  lineLoop_safe _ _ _ _ _ _ v fuel buf x1 y1 _ hlen

/-- C1 helper: the `fill_circle` loop is safe for any state. -/
theorem circleFillLoop_safe {w h : Nat} (x y : Int) (v : Nat) :
    ∀ (fuel : Nat) (buf : List Nat) (i j err : Int),
      buf.length = w * h →
      SafeOk (w * h) (circleFillLoop w h x y v fuel buf i j err) := by
  have hcw0 := clamped_width_nonneg w
  intro fuel
  induction fuel with
  | zero => intro buf i j err hlen; exact rfl
  | succ fuel ih =>
    intro buf i j err hlen
    obtain ⟨b1, hb1, hlen1⟩ := guardedRowSpan_ok (w := w) (h := h) (y - j)
      (iclamp (x + i) 0 (clamped_width w - 1))
      (iclamp (x - i) (iclamp (x + i) 0 (clamped_width w - 1)) (clamped_width w))
      v hlen (by unfold iclamp; omega) (by unfold iclamp; omega)
      (by unfold iclamp; omega)
    obtain ⟨b2, hb2, hlen2⟩ := guardedRowSpan_ok (w := w) (h := h) (y + j)
      (iclamp (x + i) 0 (clamped_width w - 1))
      (iclamp (x - i) (iclamp (x + i) 0 (clamped_width w - 1)) (clamped_width w))
      v hlen1 (by unfold iclamp; omega) (by unfold iclamp; omega)
      (by unfold iclamp; omega)
    simp only [circleFillLoop]
    rw [hb1]
    dsimp only
    rw [hb2]
    dsimp only
    exact safeOk_ite (safeOk_ok hlen2) (ih b2 _ _ _ hlen2)

/-- C1 helper: `fill_circle` is safe. -/
theorem fill_circle_safe {w h : Nat} {buf : List Nat} (x y r : Int) (v : Nat)
    (fuel : Nat) (hlen : buf.length = w * h) :
    SafeOk (w * h) (fill_circle w h buf x y r v fuel) := by
  unfold fill_circle
  split
  · exact safeOk_ok hlen
  · exact circleFillLoop_safe x y v fuel buf _ _ _ hlen

/-- C1 helper: the `outline_circle` loop is safe for any state. -/
theorem circleOutlineLoop_safe {w h : Nat} (x y : Int) (v : Nat) :
    ∀ (fuel : Nat) (buf : List Nat) (i j err : Int),
      buf.length = w * h →
      SafeOk (w * h) (circleOutlineLoop w h x y v fuel buf i j err) := by
  intro fuel
  induction fuel with
  | zero => intro buf i j err hlen; exact rfl
  | succ fuel ih =>
    intro buf i j err hlen
    obtain ⟨b1, hb1, hlen1⟩ := guardedSet_ok (w := w) (h := h) (x - i) (y - j) v hlen
    obtain ⟨b2, hb2, hlen2⟩ := guardedSet_ok (w := w) (h := h) (x - i) (y + j) v hlen1
    obtain ⟨b3, hb3, hlen3⟩ := guardedSet_ok (w := w) (h := h) (x + i) (y - j) v hlen2
    obtain ⟨b4, hb4, hlen4⟩ := guardedSet_ok (w := w) (h := h) (x + i) (y + j) v hlen3
    simp only [circleOutlineLoop]
    rw [hb1]
    dsimp only
    rw [hb2]
    dsimp only
    rw [hb3]
    dsimp only
    rw [hb4]
    dsimp only
    exact safeOk_ite (safeOk_ok hlen4) (ih b4 _ _ _ hlen4)

/-- C1 helper: `outline_circle` is safe. -/
theorem outline_circle_safe {w h : Nat} {buf : List Nat} (x y r : Int)
    (v : Nat) (fuel : Nat) (hlen : buf.length = w * h) :
    SafeOk (w * h) (outline_circle w h buf x y r v fuel) := by
  unfold outline_circle
  split
  · exact safeOk_ok hlen
  · exact circleOutlineLoop_safe x y v fuel buf _ _ _ hlen

/-- A span fill on row `yn` with clipped column bounds is `.ok`. -/
theorem rowSpan_ok {w h : Nat} {buf : List Nat} (yn fxn txn : Nat) (v : Nat)
    (hlen : buf.length = w * h) (hy : yn < h) (hft : fxn ≤ txn)
    (htx : txn ≤ w) :
    ∃ b, bufFillRange buf (yn * w + fxn) (yn * w + txn) v = .ok b ∧
      b.length = w * h := by
  have h1 : yn * w + fxn ≤ yn * w + txn := by omega
  have h2 : yn * w + txn ≤ buf.length := by
    rw [hlen, Nat.mul_comm w h]
    exact span_le_of_le hy htx
  exact ⟨_, bufFillRange_isOk h1 h2, by simp [listFill_length, hlen]⟩

/-- A `vcol` column staying above row `h` is `.ok`. -/
theorem vcol_ok {w h : Nat} (x v : Nat) :
    ∀ (n : Nat) (buf : List Nat) (y : Nat), buf.length = w * h →
      x < w → y + n ≤ h →
      ∃ b, vcol w x v buf y n = .ok b ∧ b.length = w * h := by
  intro n
  induction n with
  | zero => intro buf y hlen _ _; exact ⟨buf, rfl, hlen⟩
  | succ n ih =>
    intro buf y hlen hx hyn
    have hy : y < h := by omega
    have hidx : y * w + x < buf.length := by
      rw [hlen, Nat.mul_comm w h]
      exact idx_lt_of_lt hy hx
    obtain ⟨b, hb, hblen⟩ := ih (buf.set (y * w + x) v) (y + 1)
      (by simp [hlen]) hx (by omega)
    exact ⟨b, by unfold vcol; rw [bufSet_isOk hidx]; exact hb, hblen⟩

/-- C1 helper: `outline_rect` is safe. -/
theorem outline_rect_safe {w h : Nat} {buf : List Nat} (x y rw rh : Int)
    (v : Nat) (hlen : buf.length = w * h) :
    SafeOk (w * h) (outline_rect w h buf x y rw rh v) := by
  have hcw0 := clamped_width_nonneg w
  have hcw := clamped_width_le w
  have hch0 := clamped_height_nonneg h
  have hch := clamped_height_le h
  simp only [outline_rect]
  split
  · exact safeOk_ok hlen
  next hwh =>
    have hstep1 : ∃ b2,
        (if x + rw - 1 ≥ 0 ∧ y < clamped_height h then
          match (if 0 ≤ y then
              bufFillRange buf
                (y.toNat * w + (iclamp x 0 (clamped_width w - 1)).toNat)
                (y.toNat * w + (min (x + rw - 1 + 1) (clamped_width w)).toNat) v
            else .ok buf) with
          | .error e => .error e
          | .ok b1 =>
            if 0 ≤ y + rh - 1 ∧ y + rh - 1 < clamped_height h then
              bufFillRange b1
                ((y + rh - 1).toNat * w + (iclamp x 0 (clamped_width w - 1)).toNat)
                ((y + rh - 1).toNat * w + (min (x + rw - 1 + 1) (clamped_width w)).toNat) v
            else .ok b1
        else .ok buf) = Except.ok b2 ∧ b2.length = w * h := by
      split
      · next hgx =>
        have hr1 : ∃ b1,
            (if 0 ≤ y then
              bufFillRange buf
                (y.toNat * w + (iclamp x 0 (clamped_width w - 1)).toNat)
                (y.toNat * w + (min (x + rw - 1 + 1) (clamped_width w)).toNat) v
            else .ok buf) = Except.ok b1 ∧ b1.length = w * h := by
          split
          · next hy0 =>
            apply rowSpan_ok _ _ _ v hlen
            · omega
            · unfold iclamp; omega
            · omega
          · exact ⟨buf, rfl, hlen⟩
        obtain ⟨b1, hb1, hlen1⟩ := hr1
        rw [hb1]
        dsimp only
        split
        · next hy2 =>
          apply rowSpan_ok _ _ _ v hlen1
          · omega
          · unfold iclamp; omega
          · omega
        · exact ⟨b1, rfl, hlen1⟩
      · exact ⟨buf, rfl, hlen⟩
    obtain ⟨b2, hb2, hlen2⟩ := hstep1
    rw [hb2]
    dsimp only
    split
    · next hg2 =>
      have hr2 : ∃ b3,
          (if 0 ≤ x then
            vcol w x.toNat v b2 (iclamp y 0 (clamped_height h - 1)).toNat
              (min (y + rh - 1) (clamped_height h) -
                iclamp y 0 (clamped_height h - 1)).toNat
          else .ok b2) = Except.ok b3 ∧ b3.length = w * h := by
        split
        · next hx0 =>
          apply vcol_ok x.toNat v _ b2 _ hlen2 (by omega)
          unfold iclamp
          omega
        · exact ⟨b2, rfl, hlen2⟩
      obtain ⟨b3, hb3, hlen3⟩ := hr2
      rw [hb3]
      dsimp only
      split
      · next hx2 =>
        have := vcol_ok (w := w) (h := h) (x + rw - 1).toNat v
          ((min (y + rh - 1) (clamped_height h) -
            iclamp y 0 (clamped_height h - 1)).toNat) b3
          (iclamp y 0 (clamped_height h - 1)).toNat hlen3 (by omega)
          (by unfold iclamp; omega)
        obtain ⟨b4, hb4, hlen4⟩ := this
        rw [hb4]
        exact safeOk_ok hlen4
      · exact safeOk_ok hlen3
    · exact safeOk_ok hlen2

/-- A row-guarded single write with an in-range column is `.ok`. -/
theorem guardedRowSet_ok {w h : Nat} {buf : List Nat} (y : Int) (xn : Nat)
    (v : Nat) (hlen : buf.length = w * h) (hx : xn < w) :
    ∃ b, (if 0 ≤ y ∧ y < clamped_height h then
        bufSet buf (y.toNat * w + xn) v
      else .ok buf) = .ok b ∧ b.length = w * h := by
  split
  · next hg =>
    have hch := clamped_height_le h
    have hyn : y.toNat < h := by omega
    have hidx : y.toNat * w + xn < buf.length := by
      rw [hlen, Nat.mul_comm w h]
      exact idx_lt_of_lt hyn hx
    exact ⟨_, bufSet_isOk hidx, by simp [hlen]⟩
  · exact ⟨buf, rfl, hlen⟩

/-- C1 helper: the main `fill_ellipse` loop is safe for any state. -/
theorem ellipseFillLoop_safe {w h : Nat} (x y a2 b2 : Int) (v : Nat) :
    ∀ (fuel : Nat) (buf : List Nat) (i j err : Int),
      buf.length = w * h →
      match ellipseFillLoop w h x y a2 b2 v fuel buf i j err with
      | .error e => e = .fuel
      | .ok p => p.1.length = w * h := by
  have hcw0 := clamped_width_nonneg w
  intro fuel
  induction fuel with
  | zero => intro buf i j err hlen; exact rfl
  | succ fuel ih =>
    intro buf i j err hlen
    obtain ⟨b1, hb1, hlen1⟩ := guardedRowSpan_ok (w := w) (h := h) (y - j)
      (iclamp (x + i) 0 (clamped_width w - 1))
      (iclamp (x - i) (iclamp (x + i) 0 (clamped_width w - 1)) (clamped_width w))
      v hlen (by unfold iclamp; omega) (by unfold iclamp; omega)
      (by unfold iclamp; omega)
    obtain ⟨b2', hb2, hlen2⟩ := guardedRowSpan_ok (w := w) (h := h) (y + j)
      (iclamp (x + i) 0 (clamped_width w - 1))
      (iclamp (x - i) (iclamp (x + i) 0 (clamped_width w - 1)) (clamped_width w))
      v hlen1 (by unfold iclamp; omega) (by unfold iclamp; omega)
      (by unfold iclamp; omega)
    simp only [ellipseFillLoop]
    rw [hb1]
    dsimp only
    rw [hb2]
    dsimp only
    exact prop_ite
      (P := fun (r : Except AccErr (List Nat × Int)) => match r with
        | Except.error e => e = AccErr.fuel
        | Except.ok p => p.1.length = w * h)
      hlen2 (ih b2' _ _ _ hlen2)

/-- C1 helper: the trailing loop of `fill_ellipse` is safe. -/
theorem ellipseTail_safe {w h : Nat} (x y : Int) (v : Nat) :
    ∀ (n : Nat) (buf : List Nat) (j : Int), buf.length = w * h →
      SafeOk (w * h) (ellipseTail w h x y v buf j n) := by
  intro n
  induction n with
  | zero => intro buf j hlen; exact safeOk_ok hlen
  | succ n ih =>
    intro buf j hlen
    have hstep : ∃ bs,
        (if 0 ≤ x ∧ x < clamped_width w then
          match (if 0 ≤ y + (j + 1) ∧ y + (j + 1) < clamped_height h then
              bufSet buf ((y + (j + 1)).toNat * w + x.toNat) v
            else .ok buf) with
          | .error e => .error e
          | .ok b =>
            if 0 ≤ y - (j + 1) ∧ y - (j + 1) < clamped_height h then
              bufSet b ((y - (j + 1)).toNat * w + x.toNat) v
            else .ok b
        else .ok buf) = Except.ok bs ∧ bs.length = w * h := by
      split
      · next hx =>
        have hcw := clamped_width_le w
        obtain ⟨b1, hb1, hlen1⟩ := guardedRowSet_ok (w := w) (h := h)
          (y + (j + 1)) x.toNat v hlen (by omega)
        rw [hb1]
        dsimp only
        obtain ⟨b2, hb2, hlen2⟩ := guardedRowSet_ok (w := w) (h := h)
          (y - (j + 1)) x.toNat v hlen1 (by omega)
        exact ⟨b2, hb2, hlen2⟩
      · exact ⟨buf, rfl, hlen⟩
    obtain ⟨bs, hbs, hlens⟩ := hstep
    simp only [ellipseTail]
    rw [hbs]
    exact ih bs _ hlens

/-- C1 helper: `fill_ellipse` is safe. -/
theorem fill_ellipse_safe {w h : Nat} {buf : List Nat} (x y a b : Int)
    (v : Nat) (fuel : Nat) (hlen : buf.length = w * h) :
    SafeOk (w * h) (fill_ellipse w h buf x y a b v fuel) := by
  simp only [fill_ellipse]
  split
  · exact safeOk_ok hlen
  · have hmain := ellipseFillLoop_safe (w := w) (h := h) x y (a * a) (b * b)
      v fuel buf (-a) 0 ((-a) * (2 * (b * b) + (-a)) + b * b) hlen
    cases hml : ellipseFillLoop w h x y (a * a) (b * b) v fuel buf (-a) 0
        ((-a) * (2 * (b * b) + (-a)) + b * b) with
    | error e => rw [hml] at hmain; exact hmain
    | ok p => rw [hml] at hmain; exact ellipseTail_safe x y v _ p.1 p.2 hmain

theorem idx_lt_len {w h yn xn : Nat} {buf : List Nat}
    (hlen : buf.length = w * h) (hy : yn < h) (hx : xn < w) :
    yn * w + xn < buf.length := by
  rw [hlen, Nat.mul_comm w h]
  exact idx_lt_of_lt hy hx

theorem bufGet_ok {buf : List Nat} {i : Nat} (hi : i < buf.length) :
    ∃ p, bufGet buf i = .ok p := by
  unfold bufGet
  rw [List.getElem?_eq_getElem hi]
  exact ⟨_, rfl⟩

/-- The upward walk of `flood_fill_start` stays in bounds and does not
increase `y`. -/
theorem walkUp_ok {w h seed : Nat} {buf : List Nat} {x : Nat}
    (hlen : buf.length = w * h) (hx : x < w) :
    ∀ y : Nat, y < h → ∃ y', walkUp w seed buf x y = .ok y' ∧ y' ≤ y := by
  intro y
  induction y with
  | zero => intro _; exact ⟨0, rfl, Nat.le_refl 0⟩
  | succ y ih =>
    intro hy
    have hidx : y * w + x < buf.length := idx_lt_len hlen (by omega) hx
    obtain ⟨p, hp⟩ := bufGet_ok hidx
    unfold walkUp
    rw [hp]
    dsimp only
    split
    · obtain ⟨y', hy', hle⟩ := ih (by omega)
      exact ⟨y', hy', by omega⟩
    · exact ⟨y + 1, rfl, Nat.le_refl _⟩

/-- The leftward walk of `flood_fill_start` stays in bounds and does not
increase `x`. -/
theorem walkLeft_ok {w h seed : Nat} {buf : List Nat} {yv : Nat}
    (hlen : buf.length = w * h) (hyv : yv < h) :
    ∀ x : Nat, x ≤ w → ∃ x', walkLeft seed buf (yv * w) x = .ok x' ∧ x' ≤ x := by
  intro x
  induction x with
  | zero => intro _; exact ⟨0, rfl, Nat.le_refl 0⟩
  | succ x ih =>
    intro hx
    obtain ⟨p, hp⟩ := bufGet_ok (idx_lt_len hlen hyv (show x < w by omega))
    unfold walkLeft
    rw [hp]
    dsimp only
    split
    · obtain ⟨x', hx', hle⟩ := ih (by omega)
      exact ⟨x', hx', by omega⟩
    · exact ⟨x + 1, rfl, Nat.le_refl _⟩

/-- The seek loop of `flood_fill_start` stays in bounds. -/
theorem seekLoop_ok {w h seed : Nat} {buf : List Nat}
    (hlen : buf.length = w * h) :
    ∀ (f x y : Nat), x < w → y < h →
      match seekLoop w seed buf f x y with
      | .error e => e = .fuel
      | .ok p => p.1 < w ∧ p.2 < h := by
  intro f
  induction f with
  | zero => intro x y _ _; exact rfl
  | succ f ih =>
    intro x y hx hy
    obtain ⟨y', hy', hley⟩ := walkUp_ok hlen hx y hy
    obtain ⟨x', hx', hlex⟩ := walkLeft_ok hlen (show y' < h by omega) x
      (by omega)
    unfold seekLoop
    rw [hy']
    dsimp only
    rw [hx']
    dsimp only
    exact prop_ite
      (P := fun (r : Except AccErr (Nat × Nat)) => match r with
        | Except.error e => e = AccErr.fuel
        | Except.ok p => p.1 < w ∧ p.2 < h)
      ⟨hx, hy⟩ (ih x' y' (by omega) (by omega))

/-- The skip loop at the top of a `flood_fill_core` row never fails and
preserves `x + last_row_len`. -/
theorem skipLoop_ok {w h seed : Nat} {buf : List Nat} {yv : Nat}
    (hlen : buf.length = w * h) (hyv : yv < h) :
    ∀ (last x : Nat), x + last ≤ w →
      ∃ r, skipLoop seed buf (yv * w) x last = .ok r ∧
        match r with
        | none => True
        | some p => p.1 + p.2 = x + last ∧ 1 ≤ p.2 := by
  intro last
  induction last with
  | zero => intro x _; exact ⟨none, rfl, trivial⟩
  | succ last ih =>
    intro x hxl
    unfold skipLoop
    split
    · exact ⟨none, rfl, trivial⟩
    · next hl0 =>
      obtain ⟨p, hp⟩ := bufGet_ok (idx_lt_len hlen hyv
        (show x + 1 < w by omega))
      rw [hp]
      dsimp only
      split
      · exact ⟨some (x + 1, last), rfl, by omega, by omega⟩
      · obtain ⟨r, hr, hrp⟩ := ih (x + 1) (by omega)
        refine ⟨r, hr, ?_⟩
        cases r with
        | none => trivial
        | some p => exact ⟨by have := hrp.1; omega, hrp.2⟩

/-- The rightward extension loop of `flood_fill_core` never fails, stays
inside the row and accounts its run length exactly. -/
theorem fillRight_ok {w h seed raw : Nat} {yv : Nat}
    (hyv : yv < h) :
    ∀ (k sx rl : Nat) (buf : List Nat), buf.length = w * h → w - sx ≤ k →
      sx ≤ w →
      ∃ b sx' rl', fillRight w seed raw (yv * w) k buf sx rl = .ok (b, sx', rl') ∧
        b.length = w * h ∧ sx ≤ sx' ∧ sx' ≤ w ∧ rl' + sx = rl + sx' := by
  intro k
  induction k with
  | zero =>
    intro sx rl buf hlen hk hsw
    have hsxw : ¬(sx < w) := by omega
    rw [fillRight]
    simp only [hsxw]
    exact ⟨buf, sx, rl, by simp, hlen, Nat.le_refl _, by omega, by omega⟩
  | succ k ih =>
    intro sx rl buf hlen hk hsw
    by_cases hsxw : sx < w
    · obtain ⟨p, hp⟩ := bufGet_ok (idx_lt_len hlen hyv hsxw)
      rw [fillRight]
      simp only [hsxw, if_true, if_pos]
      rw [hp]
      dsimp only
      split
      · have hidx : yv * w + sx < buf.length := idx_lt_len hlen hyv hsxw
        rw [bufSet_isOk hidx]
        dsimp only
        obtain ⟨b, sx', rl', hfr, hblen, hle1, hle2, hacct⟩ :=
          ih (sx + 1) (rl + 1) (buf.set (yv * w + sx) raw) (by simp [hlen])
            (by omega) (by omega)
        exact ⟨b, sx', rl', hfr, hblen, by omega, hle2, by omega⟩
      · exact ⟨buf, sx, rl, rfl, hlen, Nat.le_refl _, by omega, by omega⟩
    · rw [fillRight]
      simp only [hsxw]
      exact ⟨buf, sx, rl, by simp, hlen, Nat.le_refl _, by omega, by omega⟩

/-- Sequencing: if the first stage satisfies its postcondition and the
continuation is safe on every admissible value, the error-propagating
match is safe. -/
theorem safe_seqP {len : Nat} {α : Type} {P : α → Prop}
    {s : Except AccErr α} {k : α → Except AccErr (List Nat)}
    (hs : match s with | .error e => e = .fuel | .ok a => P a)
    (hk : ∀ a, P a → SafeOk len (k a)) :
    SafeOk len (match s with | .error e => .error e | .ok a => k a) := by
  cases s with
  | error e => exact hs
  | ok a => exact hk a hs

/-- The flood-fill recursion is safe: under `ffPre`, every call performs
only in-bounds accesses (any abort is fuel exhaustion), preserves the
buffer length, and a `left` call additionally reports its updated
`x`/`row_len`/`last_row_len` consistently. -/
theorem ffGo_safe (w h seed raw : Nat) : ∀ (fuel : Nat) (c : FFCall),
    ffPre w h c →
    match ffGo w h seed raw fuel c with
    | .error e => e = .fuel
    | .ok s => s.1.length = w * h ∧
        (match c with
         | .left _ x _ rl last => s.2.1 ≤ x ∧ s.2.2.1 + s.2.1 = rl + x ∧
             s.2.2.2 + s.2.1 = last + x
         | _ => True) := by
  intro fuel
  induction fuel with
  | zero => intro c _; exact rfl
  | succ fuel ih =>
    intro c hc
    cases c with
    | start buf x y =>
      obtain ⟨hlen, hx, hy⟩ := hc
      have hseek := @seekLoop_ok w h seed buf hlen (x + y + 1) x y hx hy
      simp only [ffGo]
      cases hs : seekLoop w seed buf (x + y + 1) x y with
      | error e => rw [hs] at hseek; exact hseek
      | ok p =>
        rw [hs] at hseek
        dsimp only
        have h5 := ih (FFCall.row buf p.1 p.2 0) ⟨hlen, hseek.1, hseek.2, by omega⟩
        cases hr : ffGo w h seed raw fuel (FFCall.row buf p.1 p.2 0) with
        | error e => rw [hr] at h5; exact h5
        | ok s => rw [hr] at h5; dsimp only at h5; exact ⟨h5.1, trivial⟩
    | row buf x y last =>
      obtain ⟨hlen, hx, hy, hxl⟩ := hc
      simp only [ffGo]
      have hleftBranch : ∀ u : Unit,
          match (match ffGo w h seed raw fuel (FFCall.left buf x y 0 last) with
            | Except.error e => Except.error e
            | Except.ok q => ffGo w h seed raw fuel
                (FFCall.rowRest q.1 q.2.1 y x q.2.2.1 q.2.2.2)) with
          | Except.error e => e = AccErr.fuel
          | Except.ok s => s.1.length = w * h ∧ True := by
        intro _
        have hfl := ih (FFCall.left buf x y 0 last) ⟨hlen, by omega, hy⟩
        cases hq : ffGo w h seed raw fuel (FFCall.left buf x y 0 last) with
        | error e => rw [hq] at hfl; exact hfl
        | ok q =>
          rw [hq] at hfl
          dsimp only at hfl
          obtain ⟨h1, h2, h3, h4⟩ := hfl
          dsimp only
          have h5 := ih (FFCall.rowRest q.1 q.2.1 y x q.2.2.1 q.2.2.2)
            ⟨h1, by omega, hy, by omega, by omega, by omega⟩
          cases hr : ffGo w h seed raw fuel
              (FFCall.rowRest q.1 q.2.1 y x q.2.2.1 q.2.2.2) with
          | error e => rw [hr] at h5; exact h5
          | ok s => rw [hr] at h5; dsimp only at h5; exact ⟨h5.1, trivial⟩
      by_cases hl0 : last = 0
      · rw [if_pos hl0]
        dsimp only
        exact hleftBranch ()
      · obtain ⟨p, hp⟩ := bufGet_ok
          (show y * w + x < buf.length from idx_lt_len hlen hy (by omega))
        rw [if_neg hl0, hp]
        dsimp only
        by_cases hps : p ≠ seed
        · rw [show decide (p ≠ seed) = true by simp [hps]]
          dsimp only
          obtain ⟨r, hr, hrp⟩ := skipLoop_ok hlen hy last x hxl
          rw [hr]
          cases r with
          | none => exact ⟨hlen, trivial⟩
          | some pr =>
            dsimp only
            obtain ⟨hsum, hge⟩ := hrp
            have h5 := ih (FFCall.rowRest buf pr.1 y pr.1 0 pr.2)
              ⟨hlen, by omega, hy, by omega, by omega, by omega⟩
            cases hrr : ffGo w h seed raw fuel
                (FFCall.rowRest buf pr.1 y pr.1 0 pr.2) with
            | error e => rw [hrr] at h5; exact h5
            | ok s => rw [hrr] at h5; dsimp only at h5; exact ⟨h5.1, trivial⟩
        · rw [show decide (p ≠ seed) = false by simp at hps; simp [hps]]
          dsimp only
          exact hleftBranch ()
    | rowRest buf x y sx rl last =>
      obtain ⟨hlen, hx, hy, hsx, hsw, hxl⟩ := hc
      obtain ⟨b, sx', rl', hfr, hblen, hle1, hle2, hacct⟩ :=
        fillRight_ok hy (w - sx) sx rl buf hlen (by omega) hsw
      simp only [ffGo]
      rw [hfr]
      dsimp only
      have hcont : ∀ (b2 : List Nat), b2.length = w * h →
          match (if rl' = 0 ∨ y + 1 ≥ h then Except.ok (b2, 0, 0, 0)
            else ffGo w h seed raw fuel (FFCall.row b2 x (y + 1) rl')) with
          | Except.error e => e = AccErr.fuel
          | Except.ok s => s.1.length = w * h ∧ True := by
        intro b2 hb2
        by_cases hc0 : rl' = 0 ∨ y + 1 ≥ h
        · rw [if_pos hc0]
          exact ⟨hb2, trivial⟩
        · rw [if_neg hc0]
          have h5 := ih (FFCall.row b2 x (y + 1) rl') ⟨hb2, hx, by omega, by omega⟩
          cases hrw : ffGo w h seed raw fuel (FFCall.row b2 x (y + 1) rl') with
          | error e => rw [hrw] at h5; exact h5
          | ok s2 => rw [hrw] at h5; dsimp only at h5; exact ⟨h5.1, trivial⟩
      by_cases hb1 : rl' < last
      · rw [if_pos hb1]
        have h5 := ih (FFCall.below b y sx' (x + last)) ⟨hblen, hy, by omega⟩
        cases hv : ffGo w h seed raw fuel (FFCall.below b y sx' (x + last)) with
        | error e => rw [hv] at h5; exact h5
        | ok s => rw [hv] at h5; dsimp only at h5; exact hcont s.1 h5.1
      · rw [if_neg hb1]
        by_cases hb2c : rl' > last ∧ y ≠ 0
        · rw [if_pos hb2c]
          have h5 := ih (FFCall.above b (y - 1) (x + last) sx')
            ⟨hblen, by omega, by omega⟩
          cases hv : ffGo w h seed raw fuel
              (FFCall.above b (y - 1) (x + last) sx') with
          | error e => rw [hv] at h5; exact h5
          | ok s => rw [hv] at h5; dsimp only at h5; exact hcont s.1 h5.1
        · rw [if_neg hb2c]
          exact hcont b hblen
    | left buf x y rl last =>
      obtain ⟨hlen, hx, hy⟩ := hc
      simp only [ffGo]
      by_cases h0 : x = 0
      · rw [if_pos h0]
        exact ⟨hlen, Nat.le_refl x, rfl, rfl⟩
      · rw [if_neg h0]
        obtain ⟨p, hp⟩ := bufGet_ok
          (show y * w + (x - 1) < buf.length from
            idx_lt_len hlen hy (by omega))
        rw [hp]
        dsimp only
        by_cases hpseed : p ≠ seed
        · rw [if_pos hpseed]
          exact ⟨hlen, Nat.le_refl x, rfl, rfl⟩
        · rw [if_neg hpseed]
          have hidx : y * w + (x - 1) < buf.length :=
            idx_lt_len hlen hy (by omega)
          rw [bufSet_isOk hidx]
          dsimp only
          have hsetlen : (buf.set (y * w + (x - 1)) raw).length = w * h := by
            simp [hlen]
          have hrecur : ∀ (b2 : List Nat), b2.length = w * h →
              match (match ffGo w h seed raw fuel
                  (FFCall.left b2 (x - 1) y (rl + 1) (last + 1)) with
                | Except.error e => Except.error e
                | Except.ok s => Except.ok s) with
              | Except.error e => e = AccErr.fuel
              | Except.ok s => s.1.length = w * h ∧ s.2.1 ≤ x ∧
                  s.2.2.1 + s.2.1 = rl + x ∧ s.2.2.2 + s.2.1 = last + x := by
            intro b2 hb2
            have hrec := ih (FFCall.left b2 (x - 1) y (rl + 1) (last + 1))
              ⟨hb2, by omega, hy⟩
            cases hw : ffGo w h seed raw fuel
                (FFCall.left b2 (x - 1) y (rl + 1) (last + 1)) with
            | error e => rw [hw] at hrec; exact hrec
            | ok q =>
              rw [hw] at hrec
              dsimp only at hrec
              obtain ⟨ha, hb1, hb2', hb3⟩ := hrec
              exact ⟨ha, by omega, by omega, by omega⟩
          by_cases hy0 : y ≠ 0
          · rw [if_pos hy0]
            obtain ⟨q, hq⟩ := bufGet_ok
              (show (y - 1) * w + (x - 1) <
                  (buf.set (y * w + (x - 1)) raw).length from by
                rw [List.length_set]
                exact idx_lt_len hlen (by omega) (by omega))
            rw [hq]
            dsimp only
            by_cases hqs : q = seed
            · rw [if_pos hqs]
              have h5 := ih (FFCall.start (buf.set (y * w + (x - 1)) raw)
                  (x - 1) (y - 1)) ⟨hsetlen, by omega, by omega⟩
              cases hv : ffGo w h seed raw fuel
                  (FFCall.start (buf.set (y * w + (x - 1)) raw)
                    (x - 1) (y - 1)) with
              | error e => rw [hv] at h5; exact h5
              | ok s =>
                rw [hv] at h5
                dsimp only at h5
                dsimp only
                have := hrecur s.1 h5.1
                cases hw : ffGo w h seed raw fuel
                    (FFCall.left s.1 (x - 1) y (rl + 1) (last + 1)) with
                | error e => rw [hw] at this; exact this
                | ok q2 => rw [hw] at this; dsimp only at this; exact this
            · rw [if_neg hqs]
              dsimp only
              have := hrecur (buf.set (y * w + (x - 1)) raw) hsetlen
              cases hw : ffGo w h seed raw fuel
                  (FFCall.left (buf.set (y * w + (x - 1)) raw)
                    (x - 1) y (rl + 1) (last + 1)) with
              | error e => rw [hw] at this; exact this
              | ok q2 => rw [hw] at this; dsimp only at this; exact this
          · rw [if_neg hy0]
            dsimp only
            have := hrecur (buf.set (y * w + (x - 1)) raw) hsetlen
            cases hw : ffGo w h seed raw fuel
                (FFCall.left (buf.set (y * w + (x - 1)) raw)
                  (x - 1) y (rl + 1) (last + 1)) with
            | error e => rw [hw] at this; exact this
            | ok q2 => rw [hw] at this; dsimp only at this; exact this
    | below buf y sx endv =>
      obtain ⟨hlen, hy, hend⟩ := hc
      simp only [ffGo]
      by_cases hterm : sx + 1 ≥ endv
      · rw [if_pos hterm]
        exact ⟨hlen, trivial⟩
      · rw [if_neg hterm]
        obtain ⟨p, hp⟩ := bufGet_ok
          (show y * w + (sx + 1) < buf.length from
            idx_lt_len hlen hy (by omega))
        rw [hp]
        dsimp only
        have hrecur : ∀ (b2 : List Nat), b2.length = w * h →
            match ffGo w h seed raw fuel (FFCall.below b2 y (sx + 1) endv) with
            | Except.error e => e = AccErr.fuel
            | Except.ok s => s.1.length = w * h ∧ True := by
          intro b2 hb2
          have h5 := ih (FFCall.below b2 y (sx + 1) endv) ⟨hb2, hy, hend⟩
          cases hw : ffGo w h seed raw fuel (FFCall.below b2 y (sx + 1) endv) with
          | error e => rw [hw] at h5; exact h5
          | ok s2 => rw [hw] at h5; dsimp only at h5; exact ⟨h5.1, trivial⟩
        by_cases hpseed : p = seed
        · rw [if_pos hpseed]
          have h5 := ih (FFCall.row buf (sx + 1) y 0) ⟨hlen, by omega, hy, by omega⟩
          cases hv : ffGo w h seed raw fuel (FFCall.row buf (sx + 1) y 0) with
          | error e => rw [hv] at h5; exact h5
          | ok s =>
            rw [hv] at h5
            dsimp only at h5
            dsimp only
            have h6 := hrecur s.1 h5.1
            cases hw : ffGo w h seed raw fuel
                (FFCall.below s.1 y (sx + 1) endv) with
            | error e => rw [hw] at h6; exact h6
            | ok s2 => rw [hw] at h6; dsimp only at h6; exact h6
        · rw [if_neg hpseed]
          dsimp only
          have h6 := hrecur buf hlen
          cases hw : ffGo w h seed raw fuel
              (FFCall.below buf y (sx + 1) endv) with
          | error e => rw [hw] at h6; exact h6
          | ok s2 => rw [hw] at h6; dsimp only at h6; exact h6
    | above buf yA ux sxEnd =>
      obtain ⟨hlen, hyA, hend⟩ := hc
      simp only [ffGo]
      by_cases hterm : ux + 1 ≥ sxEnd
      · rw [if_pos hterm]
        exact ⟨hlen, trivial⟩
      · rw [if_neg hterm]
        obtain ⟨p, hp⟩ := bufGet_ok
          (show yA * w + (ux + 1) < buf.length from
            idx_lt_len hlen hyA (by omega))
        rw [hp]
        dsimp only
        have hrecur : ∀ (b2 : List Nat), b2.length = w * h →
            match ffGo w h seed raw fuel (FFCall.above b2 yA (ux + 1) sxEnd) with
            | Except.error e => e = AccErr.fuel
            | Except.ok s => s.1.length = w * h ∧ True := by
          intro b2 hb2
          have h5 := ih (FFCall.above b2 yA (ux + 1) sxEnd) ⟨hb2, hyA, hend⟩
          cases hw : ffGo w h seed raw fuel (FFCall.above b2 yA (ux + 1) sxEnd) with
          | error e => rw [hw] at h5; exact h5
          | ok s2 => rw [hw] at h5; dsimp only at h5; exact ⟨h5.1, trivial⟩
        by_cases hpseed : p = seed
        · rw [if_pos hpseed]
          have h5 := ih (FFCall.start buf (ux + 1) yA) ⟨hlen, by omega, hyA⟩
          cases hv : ffGo w h seed raw fuel (FFCall.start buf (ux + 1) yA) with
          | error e => rw [hv] at h5; exact h5
          | ok s =>
            rw [hv] at h5
            dsimp only at h5
            dsimp only
            have h6 := hrecur s.1 h5.1
            cases hw : ffGo w h seed raw fuel
                (FFCall.above s.1 yA (ux + 1) sxEnd) with
            | error e => rw [hw] at h6; exact h6
            | ok s2 => rw [hw] at h6; dsimp only at h6; exact h6
        · rw [if_neg hpseed]
          dsimp only
          have h6 := hrecur buf hlen
          cases hw : ffGo w h seed raw fuel
              (FFCall.above buf yA (ux + 1) sxEnd) with
          | error e => rw [hw] at h6; exact h6
          | ok s2 => rw [hw] at h6; dsimp only at h6; exact h6

/-- `flood_fill_start` is safe from any in-bounds start on a full-size
buffer. -/
theorem flood_fill_start_safe {w h seed raw : Nat} {buf : List Nat}
    (hlen : buf.length = w * h) (fuel : Nat) {x y : Nat}
    (hx : x < w) (hy : y < h) :
    SafeOk (w * h) (flood_fill_start w h seed raw fuel buf x y) := by
  have hs := ffGo_safe w h seed raw fuel (.start buf x y) ⟨hlen, hx, hy⟩
  unfold flood_fill_start
  cases hv : ffGo w h seed raw fuel (FFCall.start buf x y) with
  | error e => rw [hv] at hs; exact hs
  | ok s => rw [hv] at hs; exact hs.1

/-- `Canvas::flood_fill` is safe for every (possibly out-of-range) target
coordinate. -/
theorem flood_fill_safe {w h : Nat} {buf : List Nat}
    (hlen : buf.length = w * h) (x y : Int) (v : Nat) (fuel : Nat) :
    SafeOk (w * h) (flood_fill w h buf x y v fuel) := by
  unfold flood_fill
  by_cases hg : 0 ≤ x ∧ x < clamped_width w ∧ 0 ≤ y ∧ y < clamped_height h
  · rw [if_pos hg]
    obtain ⟨hx0, hxw, hy0, hyh⟩ := hg
    have hcw := clamped_width_le w
    have hch := clamped_height_le h
    have hxw2 : x.toNat < w := by omega
    have hyh2 : y.toNat < h := by omega
    obtain ⟨p, hp⟩ := bufGet_ok (show y.toNat * w + x.toNat < buf.length from
      idx_lt_len hlen hyh2 hxw2)
    rw [hp]
    dsimp only
    by_cases hps : p ≠ v
    · rw [if_pos hps]
      exact flood_fill_start_safe hlen fuel hxw2 hyh2
    · rw [if_neg hps]
      exact hlen
  · rw [if_neg hg]
    exact hlen

/-! ### Painter lemmas (for the axis-aligned line equivalences) -/

/-- `gset` preserves the buffer length. -/
theorem gset_length (w h v : Nat) (buf : List Nat) (x y : Int) :
    (gset w h v buf x y).length = buf.length := by
  unfold gset
  split
  · exact List.length_set buf _ _
  · rfl

/-- On a full-size buffer, the guarded Bresenham plot is `gset` (it never
goes out of bounds). -/
theorem plot_eq_gset {w h : Nat} {buf : List Nat} (v : Nat) (x y : Int)
    (hlen : buf.length = w * h) :
    (if 0 ≤ x ∧ x < clamped_width w ∧ 0 ≤ y ∧ y < clamped_height h then
      bufSet buf (y.toNat * w + x.toNat) v
    else .ok buf) = .ok (gset w h v buf x y) := by
  unfold gset
  by_cases hg : 0 ≤ x ∧ x < clamped_width w ∧ 0 ≤ y ∧ y < clamped_height h
  · rw [if_pos hg, if_pos hg]
    have hcw := clamped_width_le w
    have hch := clamped_height_le h
    obtain ⟨h1, h2, h3, h4⟩ := hg
    exact bufSet_isOk (idx_lt_len hlen (by omega) (by omega))
  · rw [if_neg hg, if_neg hg]

/-- Two `gset`s in the same column at distinct rows commute. -/
theorem gset_comm_col (w h v : Nat) (x : Int) (buf : List Nat) {a b : Int}
    (hne : a ≠ b) :
    gset w h v (gset w h v buf x a) x b =
      gset w h v (gset w h v buf x b) x a := by
  have hcw := clamped_width_le w
  unfold gset
  split_ifs with h1 h2
  · have hw : 0 < w := by omega
    have hab : a.toNat ≠ b.toNat := by omega
    have hidx : a.toNat * w + x.toNat ≠ b.toNat * w + x.toNat := by
      intro hEq
      exact hab (Nat.eq_of_mul_eq_mul_right hw (by omega))
    exact List.set_comm v v buf hidx
  · rfl
  · rfl
  · rfl

/-- Two `gset`s in the same row at distinct columns commute. -/
theorem gset_comm_row (w h v : Nat) (y : Int) (buf : List Nat) {a b : Int}
    (hne : a ≠ b) :
    gset w h v (gset w h v buf a y) b y =
      gset w h v (gset w h v buf b y) a y := by
  unfold gset
  split_ifs with h1 h2
  · have hidx : y.toNat * w + a.toNat ≠ y.toNat * w + b.toNat := by omega
    exact List.set_comm v v buf hidx
  · rfl
  · rfl
  · rfl

/-- Peeling the last (topmost) point off an upward column paint. -/
theorem colPaintUp_succ_last (w h v : Nat) (x : Int) :
    ∀ (n : Nat) (buf : List Nat) (y0 : Int),
      colPaintUp w h v x buf y0 (n + 1) =
        gset w h v (colPaintUp w h v x buf y0 n) x (y0 + n) := by
  intro n
  induction n with
  | zero =>
    intro buf y0
    show gset w h v buf x y0 = gset w h v buf x (y0 + (0 : Nat))
    norm_num
  | succ n ih =>
    intro buf y0
    show colPaintUp w h v x (gset w h v buf x y0) (y0 + 1) (n + 1) = _
    rw [ih (gset w h v buf x y0) (y0 + 1)]
    show _ = gset w h v
        (colPaintUp w h v x (gset w h v buf x y0) (y0 + 1) n) x (y0 + (n + 1 : Nat))
    congr 1
    push_cast
    ring

/-- A `gset` at a row outside the painted range commutes out of an upward
column paint. -/
theorem colPaintUp_gset_out (w h v : Nat) (x : Int) :
    ∀ (n : Nat) (buf : List Nat) (y0 z : Int), (z < y0 ∨ y0 + n ≤ z) →
      colPaintUp w h v x (gset w h v buf x z) y0 n =
        gset w h v (colPaintUp w h v x buf y0 n) x z := by
  intro n
  induction n with
  | zero => intro buf y0 z _; rfl
  | succ n ih =>
    intro buf y0 z hz
    show colPaintUp w h v x (gset w h v (gset w h v buf x z) x y0) (y0 + 1) n = _
    rw [gset_comm_col w h v x buf (show z ≠ y0 by
      rcases hz with hz | hz
      · omega
      · omega)]
    rw [ih (gset w h v buf x y0) (y0 + 1) z (by
      rcases hz with hz | hz
      · exact Or.inl (by omega)
      · exact Or.inr (by push_cast at hz ⊢; omega))]
    rfl

/-- A downward column paint equals the upward paint of the same rows. -/
theorem colPaintDown_eq_up (w h v : Nat) (x : Int) :
    ∀ (n : Nat) (buf : List Nat) (y : Int),
      colPaintDown w h v x buf y (n + 1) =
        colPaintUp w h v x buf (y - n) (n + 1) := by
  intro n
  induction n with
  | zero =>
    intro buf y
    show gset w h v buf x y = gset w h v buf x (y - (0 : Nat))
    norm_num
  | succ n ih =>
    intro buf y
    show colPaintDown w h v x (gset w h v buf x y) (y - 1) (n + 1) = _
    rw [ih (gset w h v buf x y) (y - 1)]
    rw [show y - 1 - (n : Int) = y - ((n + 1 : Nat) : Int) from by push_cast; ring]
    rw [colPaintUp_gset_out w h v x (n + 1) buf (y - ((n + 1 : Nat) : Int)) y
      (Or.inr (by push_cast; omega))]
    conv_rhs => rw [colPaintUp_succ_last w h v x (n + 1) buf (y - ((n + 1 : Nat) : Int))]
    rw [show (y - ((n + 1 : Nat) : Int)) + ((n + 1 : Nat) : Int) = y from by ring]

/-- Peeling the last (rightmost) point off a rightward row paint. -/
theorem rowPaintUp_succ_last (w h v : Nat) (y : Int) :
    ∀ (n : Nat) (buf : List Nat) (x0 : Int),
      rowPaintUp w h v y buf x0 (n + 1) =
        gset w h v (rowPaintUp w h v y buf x0 n) (x0 + n) y := by
  intro n
  induction n with
  | zero =>
    intro buf x0
    show gset w h v buf x0 y = gset w h v buf (x0 + (0 : Nat)) y
    norm_num
  | succ n ih =>
    intro buf x0
    show rowPaintUp w h v y (gset w h v buf x0 y) (x0 + 1) (n + 1) = _
    rw [ih (gset w h v buf x0 y) (x0 + 1)]
    show _ = gset w h v
        (rowPaintUp w h v y (gset w h v buf x0 y) (x0 + 1) n) (x0 + (n + 1 : Nat)) y
    congr 1
    push_cast
    ring

/-- A `gset` at a column outside the painted range commutes out of a
rightward row paint. -/
theorem rowPaintUp_gset_out (w h v : Nat) (y : Int) :
    ∀ (n : Nat) (buf : List Nat) (x0 z : Int), (z < x0 ∨ x0 + n ≤ z) →
      rowPaintUp w h v y (gset w h v buf z y) x0 n =
        gset w h v (rowPaintUp w h v y buf x0 n) z y := by
  intro n
  induction n with
  | zero => intro buf x0 z _; rfl
  | succ n ih =>
    intro buf x0 z hz
    show rowPaintUp w h v y (gset w h v (gset w h v buf z y) x0 y) (x0 + 1) n = _
    rw [gset_comm_row w h v y buf (show z ≠ x0 by
      rcases hz with hz | hz
      · omega
      · omega)]
    rw [ih (gset w h v buf x0 y) (x0 + 1) z (by
      rcases hz with hz | hz
      · exact Or.inl (by omega)
      · exact Or.inr (by push_cast at hz ⊢; omega))]
    rfl

/-- A leftward row paint equals the rightward paint of the same columns. -/
theorem rowPaintDown_eq_up (w h v : Nat) (y : Int) :
    ∀ (n : Nat) (buf : List Nat) (x : Int),
      rowPaintDown w h v y buf x (n + 1) =
        rowPaintUp w h v y buf (x - n) (n + 1) := by
  intro n
  induction n with
  | zero =>
    intro buf x
    show gset w h v buf x y = gset w h v buf (x - (0 : Nat)) y
    norm_num
  | succ n ih =>
    intro buf x
    show rowPaintDown w h v y (gset w h v buf x y) (x - 1) (n + 1) = _
    rw [ih (gset w h v buf x y) (x - 1)]
    rw [show x - 1 - (n : Int) = x - ((n + 1 : Nat) : Int) from by push_cast; ring]
    rw [rowPaintUp_gset_out w h v y (n + 1) buf (x - ((n + 1 : Nat) : Int)) x
      (Or.inr (by push_cast; omega))]
    conv_rhs => rw [rowPaintUp_succ_last w h v y (n + 1) buf (x - ((n + 1 : Nat) : Int))]
    rw [show (x - ((n + 1 : Nat) : Int)) + ((n + 1 : Nat) : Int) = x from by ring]

/-- `wrap32` is the identity on in-range values. -/
theorem wrap32_eq_self (a : Int) (h1 : -2 ^ 31 ≤ a) (h2 : a < 2 ^ 31) :
    wrap32 a = a := by
  unfold wrap32
  omega

/-- Bresenham on a vertical segment walking upward (in `y`): the loop is a
pure column paint.  (`dy < 0` is the loop invariant for a proper segment;
`n = 0` covers the degenerate single-point case.  The range hypotheses
keep every wrapped `i32` operation exact.) -/
theorem lineVertUpEval (w h : Nat) (x y2 : Int) (v : Nat) (dy : Int) :
    ∀ (n fuel : Nat) (buf : List Nat) (y : Int), buf.length = w * h →
      n < fuel → y2 = y + n → (dy < 0 ∨ n = 0) → -2 ^ 30 ≤ dy →
      -2 ^ 31 ≤ y → y2 < 2 ^ 31 →
      lineLoop w h x y2 0 dy (-1) 1 v fuel buf x y dy =
        .ok (colPaintUp w h v x buf y (n + 1)) := by
  intro n
  induction n with
  | zero =>
    intro fuel buf y hlen hf hy2 _ _ _ _
    cases fuel with
    | zero => omega
    | succ f =>
      unfold lineLoop
      rw [plot_eq_gset v x y hlen]
      dsimp only
      rw [if_pos ⟨rfl, by omega⟩]
      rfl
  | succ n ih =>
    intro fuel buf y hlen hf hy2 hdy0 hdyr hyr hy2r
    have hdy : dy < 0 := by
      rcases hdy0 with hd | hd
      · exact hd
      · omega
    cases fuel with
    | zero => omega
    | succ f =>
      unfold lineLoop
      rw [plot_eq_gset v x y hlen]
      dsimp only
      rw [if_neg (by rintro ⟨hc1, hc2⟩; omega)]
      rw [wrap32_eq_self (2 * dy) (by omega) (by omega)]
      rw [if_neg (by omega : ¬(2 * dy ≥ dy))]
      rw [if_pos (by omega : 2 * dy ≤ (0 : Int))]
      dsimp only
      rw [Int.add_zero]
      rw [wrap32_eq_self dy (by omega) (by omega)]
      rw [wrap32_eq_self (y + 1) (by omega) (by omega)]
      rw [show colPaintUp w h v x buf y (n + 1 + 1) =
        colPaintUp w h v x (gset w h v buf x y) (y + 1) (n + 1) from rfl]
      exact ih f (gset w h v buf x y) (y + 1)
        (by rw [gset_length]; exact hlen) (by omega) (by omega) (Or.inl hdy)
        hdyr (by omega) hy2r

/-- Bresenham on a vertical segment walking downward: a descending column
paint. -/
theorem lineVertDownEval (w h : Nat) (x y2 : Int) (v : Nat) (dy : Int) :
    ∀ (n fuel : Nat) (buf : List Nat) (y : Int), buf.length = w * h →
      n < fuel → y2 = y - n → (dy < 0 ∨ n = 0) → -2 ^ 30 ≤ dy →
      y < 2 ^ 31 → -2 ^ 31 ≤ y2 →
      lineLoop w h x y2 0 dy (-1) (-1) v fuel buf x y dy =
        .ok (colPaintDown w h v x buf y (n + 1)) := by
  intro n
  induction n with
  | zero =>
    intro fuel buf y hlen hf hy2 _ _ _ _
    cases fuel with
    | zero => omega
    | succ f =>
      unfold lineLoop
      rw [plot_eq_gset v x y hlen]
      dsimp only
      rw [if_pos ⟨rfl, by omega⟩]
      rfl
  | succ n ih =>
    intro fuel buf y hlen hf hy2 hdy0 hdyr hyr hy2r
    have hdy : dy < 0 := by
      rcases hdy0 with hd | hd
      · exact hd
      · omega
    cases fuel with
    | zero => omega
    | succ f =>
      unfold lineLoop
      rw [plot_eq_gset v x y hlen]
      dsimp only
      rw [if_neg (by rintro ⟨hc1, hc2⟩; omega)]
      rw [wrap32_eq_self (2 * dy) (by omega) (by omega)]
      rw [if_neg (by omega : ¬(2 * dy ≥ dy))]
      rw [if_pos (by omega : 2 * dy ≤ (0 : Int))]
      dsimp only
      rw [Int.add_zero]
      rw [wrap32_eq_self dy (by omega) (by omega)]
      rw [wrap32_eq_self (y + -1) (by omega) (by omega)]
      rw [show y + (-1 : Int) = y - 1 from by ring]
      rw [show colPaintDown w h v x buf y (n + 1 + 1) =
        colPaintDown w h v x (gset w h v buf x y) (y - 1) (n + 1) from rfl]
      exact ih f (gset w h v buf x y) (y - 1)
        (by rw [gset_length]; exact hlen) (by omega) (by omega) (Or.inl hdy)
        hdyr (by omega) hy2r

/-- Bresenham on a horizontal segment walking rightward: a row paint. -/
theorem lineHorizRightEval (w h : Nat) (y x2 : Int) (v : Nat) (dx : Int) :
    ∀ (n fuel : Nat) (buf : List Nat) (x : Int), buf.length = w * h →
      n < fuel → x2 = x + n → (0 < dx ∨ n = 0) → dx < 2 ^ 30 →
      -2 ^ 31 ≤ x → x2 < 2 ^ 31 →
      lineLoop w h x2 y dx 0 1 (-1) v fuel buf x y dx =
        .ok (rowPaintUp w h v y buf x (n + 1)) := by
  intro n
  induction n with
  | zero =>
    intro fuel buf x hlen hf hx2 _ _ _ _
    cases fuel with
    | zero => omega
    | succ f =>
      unfold lineLoop
      rw [plot_eq_gset v x y hlen]
      dsimp only
      rw [if_pos ⟨by omega, rfl⟩]
      rfl
  | succ n ih =>
    intro fuel buf x hlen hf hx2 hdx0 hdxr hxr hx2r
    have hdx : 0 < dx := by
      rcases hdx0 with hd | hd
      · exact hd
      · omega
    cases fuel with
    | zero => omega
    | succ f =>
      unfold lineLoop
      rw [plot_eq_gset v x y hlen]
      dsimp only
      rw [if_neg (by rintro ⟨hc1, hc2⟩; omega)]
      rw [wrap32_eq_self (2 * dx) (by omega) (by omega)]
      rw [if_pos (by omega : 2 * dx ≥ (0 : Int))]
      rw [if_neg (by omega : ¬(2 * dx ≤ dx))]
      dsimp only
      rw [Int.add_zero]
      rw [wrap32_eq_self dx (by omega) (by omega)]
      rw [wrap32_eq_self (x + 1) (by omega) (by omega)]
      rw [show rowPaintUp w h v y buf x (n + 1 + 1) =
        rowPaintUp w h v y (gset w h v buf x y) (x + 1) (n + 1) from rfl]
      exact ih f (gset w h v buf x y) (x + 1)
        (by rw [gset_length]; exact hlen) (by omega) (by omega) (Or.inl hdx)
        hdxr (by omega) hx2r

/-- Bresenham on a horizontal segment walking leftward: a descending row
paint. -/
theorem lineHorizLeftEval (w h : Nat) (y x2 : Int) (v : Nat) (dx : Int) :
    ∀ (n fuel : Nat) (buf : List Nat) (x : Int), buf.length = w * h →
      n < fuel → x2 = x - n → (0 < dx ∨ n = 0) → dx < 2 ^ 30 →
      x < 2 ^ 31 → -2 ^ 31 ≤ x2 →
      lineLoop w h x2 y dx 0 (-1) (-1) v fuel buf x y dx =
        .ok (rowPaintDown w h v y buf x (n + 1)) := by
  intro n
  induction n with
  | zero =>
    intro fuel buf x hlen hf hx2 _ _ _ _
    cases fuel with
    | zero => omega
    | succ f =>
      unfold lineLoop
      rw [plot_eq_gset v x y hlen]
      dsimp only
      rw [if_pos ⟨by omega, rfl⟩]
      rfl
  | succ n ih =>
    intro fuel buf x hlen hf hx2 hdx0 hdxr hxr hx2r
    have hdx : 0 < dx := by
      rcases hdx0 with hd | hd
      · exact hd
      · omega
    cases fuel with
    | zero => omega
    | succ f =>
      unfold lineLoop
      rw [plot_eq_gset v x y hlen]
      dsimp only
      rw [if_neg (by rintro ⟨hc1, hc2⟩; omega)]
      rw [wrap32_eq_self (2 * dx) (by omega) (by omega)]
      rw [if_pos (by omega : 2 * dx ≥ (0 : Int))]
      rw [if_neg (by omega : ¬(2 * dx ≤ dx))]
      dsimp only
      rw [Int.add_zero]
      rw [wrap32_eq_self dx (by omega) (by omega)]
      rw [wrap32_eq_self (x + -1) (by omega) (by omega)]
      rw [show x + (-1 : Int) = x - 1 from by ring]
      rw [show rowPaintDown w h v y buf x (n + 1 + 1) =
        rowPaintDown w h v y (gset w h v buf x y) (x - 1) (n + 1) from rfl]
      exact ih f (gset w h v buf x y) (x - 1)
        (by rw [gset_length]; exact hlen) (by omega) (by omega) (Or.inl hdx)
        hdxr (by omega) hx2r

/-- `Canvas::line` on a vertical segment with `y1 ≤ y2` (both endpoints
in `i32` range, span below `2^30` so no `i32` operation wraps) is the
upward column paint of rows `y1..y2`. -/
theorem line_vert_eval {w h : Nat} {buf : List Nat} (hlen : buf.length = w * h)
    (x y1 y2 : Int) (v fuel : Nat) (hle : y1 ≤ y2)
    (hy1r : -2 ^ 31 ≤ y1) (hy2r : y2 < 2 ^ 31) (hspan : y2 - y1 < 2 ^ 30)
    (hf : y2 - y1 < (fuel : Int)) :
    line w h buf x y1 x y2 v fuel =
      .ok (colPaintUp w h v x buf y1 ((y2 - y1).toNat + 1)) := by
  simp only [line]
  rw [sub_self]
  rw [wrap32_eq_self 0 (by norm_num) (by norm_num)]
  rw [abs_zero]
  rw [wrap32_eq_self 0 (by norm_num) (by norm_num)]
  rw [if_neg (lt_irrefl x)]
  rw [wrap32_eq_self (y2 - y1) (by omega) (by omega)]
  rw [abs_of_nonneg (show (0 : Int) ≤ y2 - y1 by omega)]
  rw [wrap32_eq_self (y2 - y1) (by omega) (by omega)]
  rw [show -(y2 - y1) = y1 - y2 from by ring]
  rw [wrap32_eq_self (y1 - y2) (by omega) (by omega)]
  rw [zero_add]
  rw [wrap32_eq_self (y1 - y2) (by omega) (by omega)]
  by_cases hlt : y1 < y2
  · rw [if_pos hlt]
    exact lineVertUpEval w h x y2 v (y1 - y2) ((y2 - y1).toNat) fuel buf y1
      hlen (by omega) (by omega) (Or.inl (by omega)) (by omega) hy1r hy2r
  · rw [if_neg hlt]
    rw [show (y2 - y1).toNat = 0 from by omega]
    rw [lineVertDownEval w h x y2 v (y1 - y2) 0 fuel buf y1 hlen (by omega)
      (by omega) (Or.inr rfl) (by omega) (by omega) (by omega)]
    rfl

/-- `Canvas::line` on a vertical segment with `y2 < y1` is the downward
column paint of rows `y1..y2`. -/
theorem line_vert_eval_down {w h : Nat} {buf : List Nat}
    (hlen : buf.length = w * h) (x y1 y2 : Int) (v fuel : Nat)
    (hlt : y2 < y1) (hy1r : y1 < 2 ^ 31) (hy2r : -2 ^ 31 ≤ y2)
    (hspan : y1 - y2 < 2 ^ 30) (hf : y1 - y2 < (fuel : Int)) :
    line w h buf x y1 x y2 v fuel =
      .ok (colPaintDown w h v x buf y1 ((y1 - y2).toNat + 1)) := by
  simp only [line]
  rw [sub_self]
  rw [wrap32_eq_self 0 (by norm_num) (by norm_num)]
  rw [abs_zero]
  rw [wrap32_eq_self 0 (by norm_num) (by norm_num)]
  rw [if_neg (lt_irrefl x)]
  rw [if_neg (by omega : ¬(y1 < y2))]
  rw [wrap32_eq_self (y2 - y1) (by omega) (by omega)]
  rw [abs_of_neg (show y2 - y1 < (0 : Int) by omega)]
  rw [show -(y2 - y1) = y1 - y2 from by ring]
  rw [wrap32_eq_self (y1 - y2) (by omega) (by omega)]
  rw [show -(y1 - y2) = y2 - y1 from by ring]
  rw [wrap32_eq_self (y2 - y1) (by omega) (by omega)]
  rw [zero_add]
  rw [wrap32_eq_self (y2 - y1) (by omega) (by omega)]
  exact lineVertDownEval w h x y2 v (y2 - y1) ((y1 - y2).toNat) fuel buf y1
    hlen (by omega) (by omega) (Or.inl (by omega)) (by omega) hy1r hy2r

/-- `Canvas::line` on a horizontal segment with `x1 ≤ x2` is the
rightward row paint of columns `x1..x2`. -/
theorem line_horiz_eval {w h : Nat} {buf : List Nat}
    (hlen : buf.length = w * h) (y x1 x2 : Int) (v fuel : Nat)
    (hle : x1 ≤ x2) (hx1r : -2 ^ 31 ≤ x1) (hx2r : x2 < 2 ^ 31)
    (hspan : x2 - x1 < 2 ^ 30) (hf : x2 - x1 < (fuel : Int)) :
    line w h buf x1 y x2 y v fuel =
      .ok (rowPaintUp w h v y buf x1 ((x2 - x1).toNat + 1)) := by
  simp only [line]
  rw [sub_self]
  rw [wrap32_eq_self 0 (by norm_num) (by norm_num)]
  rw [abs_zero]
  rw [wrap32_eq_self 0 (by norm_num) (by norm_num)]
  rw [neg_zero]
  rw [wrap32_eq_self 0 (by norm_num) (by norm_num)]
  rw [if_neg (lt_irrefl y)]
  rw [wrap32_eq_self (x2 - x1) (by omega) (by omega)]
  rw [abs_of_nonneg (show (0 : Int) ≤ x2 - x1 by omega)]
  rw [wrap32_eq_self (x2 - x1) (by omega) (by omega)]
  rw [add_zero]
  rw [wrap32_eq_self (x2 - x1) (by omega) (by omega)]
  by_cases hlt : x1 < x2
  · rw [if_pos hlt]
    exact lineHorizRightEval w h y x2 v (x2 - x1) ((x2 - x1).toNat) fuel buf
      x1 hlen (by omega) (by omega) (Or.inl (by omega)) (by omega) hx1r hx2r
  · rw [if_neg hlt]
    rw [show (x2 - x1).toNat = 0 from by omega]
    rw [lineHorizLeftEval w h y x2 v (x2 - x1) 0 fuel buf x1 hlen (by omega)
      (by omega) (Or.inr rfl) (by omega) (by omega) (by omega)]
    rfl

/-- `Canvas::line` on a horizontal segment with `x2 < x1` is the leftward
row paint of columns `x1..x2`. -/
theorem line_horiz_eval_down {w h : Nat} {buf : List Nat}
    (hlen : buf.length = w * h) (y x1 x2 : Int) (v fuel : Nat)
    (hlt : x2 < x1) (hx1r : x1 < 2 ^ 31) (hx2r : -2 ^ 31 ≤ x2)
    (hspan : x1 - x2 < 2 ^ 30) (hf : x1 - x2 < (fuel : Int)) :
    line w h buf x1 y x2 y v fuel =
      .ok (rowPaintDown w h v y buf x1 ((x1 - x2).toNat + 1)) := by
  simp only [line]
  rw [sub_self]
  rw [wrap32_eq_self 0 (by norm_num) (by norm_num)]
  rw [abs_zero]
  rw [wrap32_eq_self 0 (by norm_num) (by norm_num)]
  rw [neg_zero]
  rw [wrap32_eq_self 0 (by norm_num) (by norm_num)]
  rw [if_neg (lt_irrefl y)]
  rw [if_neg (by omega : ¬(x1 < x2))]
  rw [wrap32_eq_self (x2 - x1) (by omega) (by omega)]
  rw [abs_of_neg (show x2 - x1 < (0 : Int) by omega)]
  rw [show -(x2 - x1) = x1 - x2 from by ring]
  rw [wrap32_eq_self (x1 - x2) (by omega) (by omega)]
  rw [add_zero]
  rw [wrap32_eq_self (x1 - x2) (by omega) (by omega)]
  exact lineHorizLeftEval w h y x2 v (x1 - x2) ((x1 - x2).toNat) fuel buf x1
    hlen (by omega) (by omega) (Or.inl (by omega)) (by omega) hx1r hx2r


/-- The `vline` column loop on an in-bounds column is a column paint. -/
theorem vcol_paint {w h : Nat} (v : Nat) (x : Int) (hx0 : 0 ≤ x)
    (hxw : x < clamped_width w) :
    ∀ (n : Nat) (buf : List Nat) (y : Int), buf.length = w * h → 0 ≤ y →
      y + n ≤ clamped_height h →
      vcol w x.toNat v buf y.toNat n = .ok (colPaintUp w h v x buf y n) := by
  intro n
  induction n with
  | zero => intro buf y _ _ _; rfl
  | succ n ih =>
    intro buf y hlen hy0 hyn
    have hcw := clamped_width_le w
    have hch := clamped_height_le h
    have hidx : y.toNat * w + x.toNat < buf.length :=
      idx_lt_len hlen (by omega) (by omega)
    simp only [vcol]
    rw [bufSet_isOk hidx]
    dsimp only
    rw [show colPaintUp w h v x buf y (n + 1) =
      colPaintUp w h v x (gset w h v buf x y) (y + 1) n from rfl]
    rw [show gset w h v buf x y = buf.set (y.toNat * w + x.toNat) v from by
      unfold gset; rw [if_pos ⟨hx0, hxw, hy0, by omega⟩]]
    rw [show y.toNat + 1 = (y + 1).toNat from by omega]
    exact ih (buf.set (y.toNat * w + x.toNat) v) (y + 1)
      (by rw [List.length_set]; exact hlen) (by omega) (by omega)

/-- `Canvas::vline` with in-bounds arguments (`y1 ≤ y2` order) is the
column paint of rows `y1..y2`. -/
theorem vline_eval {w h : Nat} {buf : List Nat} (hlen : buf.length = w * h)
    (x y1 y2 : Int) (v : Nat) (hx0 : 0 ≤ x) (hxw : x < clamped_width w)
    (hy0 : 0 ≤ y1) (hle : y1 ≤ y2) (hyh : y2 < clamped_height h) :
    vline w h buf x y1 y2 v =
      .ok (colPaintUp w h v x buf y1 ((y2 - y1).toNat + 1)) := by
  simp only [vline]
  rw [if_pos ⟨hx0, hxw⟩]
  rw [if_neg (by omega : ¬(y1 > y2))]
  dsimp only
  rw [show iclamp y1 0 (clamped_height h - 1) = y1 from by unfold iclamp; omega]
  rw [show iclamp (y2 + 1) y1 (clamped_height h) = y2 + 1 from by
    unfold iclamp; omega]
  rw [show (y2 + 1 - y1).toNat = (y2 - y1).toNat + 1 from by omega]
  exact vcol_paint v x hx0 hxw ((y2 - y1).toNat + 1) buf y1 hlen hy0 (by omega)

/-- `Canvas::vline` with in-bounds arguments given in descending order. -/
theorem vline_eval_swap {w h : Nat} {buf : List Nat}
    (hlen : buf.length = w * h) (x y1 y2 : Int) (v : Nat) (hx0 : 0 ≤ x)
    (hxw : x < clamped_width w) (hy0 : 0 ≤ y2) (hlt : y2 < y1)
    (hyh : y1 < clamped_height h) :
    vline w h buf x y1 y2 v =
      .ok (colPaintUp w h v x buf y2 ((y1 - y2).toNat + 1)) := by
  simp only [vline]
  rw [if_pos ⟨hx0, hxw⟩]
  rw [if_pos (by omega : y1 > y2)]
  dsimp only
  rw [show iclamp y2 0 (clamped_height h - 1) = y2 from by unfold iclamp; omega]
  rw [show iclamp (y1 + 1) y2 (clamped_height h) = y1 + 1 from by
    unfold iclamp; omega]
  rw [show (y1 + 1 - y2).toNat = (y1 - y2).toNat + 1 from by omega]
  exact vcol_paint v x hx0 hxw ((y1 - y2).toNat + 1) buf y2 hlen hy0 (by omega)

/-- A span fill along an in-bounds row is a row paint. -/
theorem listFill_paint {w h : Nat} (v : Nat) (y : Int) (hy0 : 0 ≤ y)
    (hyh : y < clamped_height h) :
    ∀ (n : Nat) (buf : List Nat) (x : Int), 0 ≤ x →
      x + n ≤ clamped_width w →
      listFill v buf (y.toNat * w + x.toNat) n = rowPaintUp w h v y buf x n := by
  intro n
  induction n with
  | zero => intro buf x _ _; rfl
  | succ n ih =>
    intro buf x hx0 hxn
    simp only [listFill]
    rw [show rowPaintUp w h v y buf x (n + 1) =
      rowPaintUp w h v y (gset w h v buf x y) (x + 1) n from rfl]
    rw [show gset w h v buf x y = buf.set (y.toNat * w + x.toNat) v from by
      unfold gset; rw [if_pos ⟨hx0, by omega, hy0, hyh⟩]]
    rw [show y.toNat * w + x.toNat + 1 = y.toNat * w + (x + 1).toNat from by
      omega]
    exact ih (buf.set (y.toNat * w + x.toNat) v) (x + 1) (by omega) (by omega)

/-- `Canvas::hline` with in-bounds arguments (`x1 ≤ x2` order) is the row
paint of columns `x1..x2`. -/
theorem hline_eval {w h : Nat} {buf : List Nat} (hlen : buf.length = w * h)
    (y x1 x2 : Int) (v : Nat) (hy0 : 0 ≤ y) (hyh : y < clamped_height h)
    (hx0 : 0 ≤ x1) (hle : x1 ≤ x2) (hxw : x2 < clamped_width w) :
    hline w h buf y x1 x2 v =
      .ok (rowPaintUp w h v y buf x1 ((x2 - x1).toNat + 1)) := by
  have hcw := clamped_width_le w
  have hch := clamped_height_le h
  simp only [hline]
  rw [if_pos ⟨hy0, hyh⟩]
  rw [if_neg (by omega : ¬(x1 > x2))]
  dsimp only
  rw [show iclamp x1 0 (clamped_width w - 1) = x1 from by unfold iclamp; omega]
  rw [show iclamp (x2 + 1) x1 (clamped_width w) = x2 + 1 from by
    unfold iclamp; omega]
  rw [bufFillRange_isOk (by omega) (by
    have hs : y.toNat * w + (x2 + 1).toNat ≤ h * w :=
      span_le_of_le (by omega) (by omega)
    have hc : h * w = w * h := Nat.mul_comm h w
    omega)]
  rw [show (y.toNat * w + (x2 + 1).toNat) - (y.toNat * w + x1.toNat) =
    (x2 - x1).toNat + 1 from by omega]
  rw [listFill_paint v y hy0 hyh ((x2 - x1).toNat + 1) buf x1 hx0 (by omega)]

/-- `Canvas::hline` with in-bounds arguments given in descending order. -/
theorem hline_eval_swap {w h : Nat} {buf : List Nat}
    (hlen : buf.length = w * h) (y x1 x2 : Int) (v : Nat) (hy0 : 0 ≤ y)
    (hyh : y < clamped_height h) (hx0 : 0 ≤ x2) (hlt : x2 < x1)
    (hxw : x1 < clamped_width w) :
    hline w h buf y x1 x2 v =
      .ok (rowPaintUp w h v y buf x2 ((x1 - x2).toNat + 1)) := by
  have hcw := clamped_width_le w
  have hch := clamped_height_le h
  simp only [hline]
  rw [if_pos ⟨hy0, hyh⟩]
  rw [if_pos (by omega : x1 > x2)]
  dsimp only
  rw [show iclamp x2 0 (clamped_width w - 1) = x2 from by unfold iclamp; omega]
  rw [show iclamp (x1 + 1) x2 (clamped_width w) = x1 + 1 from by
    unfold iclamp; omega]
  rw [bufFillRange_isOk (by omega) (by
    have hs : y.toNat * w + (x1 + 1).toNat ≤ h * w :=
      span_le_of_le (by omega) (by omega)
    have hc : h * w = w * h := Nat.mul_comm h w
    omega)]
  rw [show (y.toNat * w + (x1 + 1).toNat) - (y.toNat * w + x2.toNat) =
    (x1 - x2).toNat + 1 from by omega]
  rw [listFill_paint v y hy0 hyh ((x1 - x2).toNat + 1) buf x2 hx0 (by omega)]

/-- C1: on a buffer of length `width*height`, every drawing operation the
claim lists (`set_pixel`, `hline`, `vline`, `fill_rect`, `outline_rect`,
`line`, `fill_circle`, `outline_circle`, `fill_ellipse`, `flood_fill`)
performs only in-bounds buffer accesses for arbitrary `i32`
coordinate/size arguments: no run returns an out-of-bounds error, and a
completed run preserves the buffer length. -/
theorem C1_drawing_ops_safe (w h : Nat) (buf : List Nat)
    (hlen : buf.length = w * h) (x y x2 y2 r a b : Int) (v fuel : Nat) :
    SafeOk (w * h) (set_pixel w h buf x y v) ∧
    SafeOk (w * h) (hline w h buf y x x2 v) ∧
    SafeOk (w * h) (vline w h buf x y y2 v) ∧
    SafeOk (w * h) (fill_rect w h buf x y x2 y2 v) ∧
    SafeOk (w * h) (outline_rect w h buf x y x2 y2 v) ∧
    SafeOk (w * h) (line w h buf x y x2 y2 v fuel) ∧
    SafeOk (w * h) (fill_circle w h buf x y r v fuel) ∧
    SafeOk (w * h) (outline_circle w h buf x y r v fuel) ∧
    SafeOk (w * h) (fill_ellipse w h buf x y a b v fuel) ∧
    SafeOk (w * h) (flood_fill w h buf x y v fuel) :=
  ⟨set_pixel_safe x y v hlen, hline_safe y x x2 v hlen,
   vline_safe x y y2 v hlen, fill_rect_safe x y x2 y2 v hlen,
   outline_rect_safe x y x2 y2 v hlen, line_safe x y x2 y2 v fuel hlen,
   fill_circle_safe x y r v fuel hlen, outline_circle_safe x y r v fuel hlen,
   fill_ellipse_safe x y a b v fuel hlen, flood_fill_safe hlen x y v fuel⟩

/-- Witness for C1 at a concrete canvas and arguments. -/
theorem C1_drawing_ops_safe_witness :
    ([0, 0, 0, 0] : List Nat).length = 2 * 2 ∧
    (SafeOk (2 * 2) (set_pixel 2 2 [0, 0, 0, 0] (-3) 1 9) ∧
     SafeOk (2 * 2) (hline 2 2 [0, 0, 0, 0] (-3) 1 5 9) ∧
     SafeOk (2 * 2) (vline 2 2 [0, 0, 0, 0] (-3) 1 (-2) 9) ∧
     SafeOk (2 * 2) (fill_rect 2 2 [0, 0, 0, 0] (-3) 1 5 (-2) 9) ∧
     SafeOk (2 * 2) (outline_rect 2 2 [0, 0, 0, 0] (-3) 1 5 (-2) 9) ∧
     SafeOk (2 * 2) (line 2 2 [0, 0, 0, 0] (-3) 1 5 (-2) 9 50) ∧
     SafeOk (2 * 2) (fill_circle 2 2 [0, 0, 0, 0] (-3) 1 3 9 50) ∧
     SafeOk (2 * 2) (outline_circle 2 2 [0, 0, 0, 0] (-3) 1 3 9 50) ∧
     SafeOk (2 * 2) (fill_ellipse 2 2 [0, 0, 0, 0] (-3) 1 2 2 9 50) ∧
     SafeOk (2 * 2) (flood_fill 2 2 [0, 0, 0, 0] (-3) 1 9 50)) :=
  ⟨rfl, C1_drawing_ops_safe 2 2 [0, 0, 0, 0] rfl (-3) 1 5 (-2) 3 2 2 9 50⟩

/-- C2: on an 8×8 all-zero canvas, `fill_rect(2,2,4,4,0xFF0000)` followed
by `flood_fill(3,3,0x00FF00)` leaves exactly the pixels with
`x ∈ [2,5]` and `y ∈ [2,5]` equal to `0x00FF00` (65280) and every other
pixel equal to 0. -/
theorem C2_fill_rect_then_flood_fill :
    (match fill_rect 8 8 (List.replicate 64 0) 2 2 4 4 16711680 with
     | Except.error e => Except.error e
     | Except.ok mid => flood_fill 8 8 mid 3 3 65280 200) =
    .ok ((List.range 64).map fun i =>
      if 2 ≤ i % 8 ∧ i % 8 ≤ 5 ∧ 2 ≤ i / 8 ∧ i / 8 ≤ 5 then 65280 else 0) :=
  rfl

/-- C4: the outline is not a subset of the fill.  With center `(4,4)` and
radius 2 on an 8×8 canvas, `outline_circle` writes pixel `(6,4)`
(index 38) while `fill_circle` leaves it untouched — the fill's spans are
half-open (`from_x..to_x` with `to_x` clamped to `x - i` exclusive) and
miss the rightmost boundary column the outline plots. -/
theorem C4_outline_writes_pixel_fill_misses :
    (match outline_circle 8 8 (List.replicate 64 0) 4 4 2 7 20 with
     | .error _ => 0
     | .ok bq => bq.getD 38 0) = 7 ∧
    (match fill_circle 8 8 (List.replicate 64 0) 4 4 2 7 20 with
     | .error _ => 7
     | .ok bq => bq.getD 38 0) = 0 :=
  ⟨rfl, rfl⟩

/-- C6 counterexample: `thick_line` with `thickness = 0` (which the claim
says draws nothing, `thickness < 1`) does modify the buffer: the guard in
the code is `thickness < 0`, so thickness 0 falls through to the
triangle pair, which degenerates to the line itself. -/
theorem C6_thickness_zero_counterexample :
    thick_line 2 4 (List.replicate 8 0) 0 0 0 3 0 5 10 =
      .ok [5, 0, 5, 0, 5, 0, 5, 0] ∧
    ([5, 0, 5, 0, 5, 0, 5, 0] : List Nat) ≠ List.replicate 8 0 :=
  ⟨rfl, by decide⟩

/-- C6 (amended): `thick_line` leaves the buffer unchanged exactly for
`thickness < 0` (not `< 1`), and `thickness = 1` produces the same buffer
as `line`. -/
theorem C6_thick_line_guards (w h : Nat) (buf : List Nat)
    (x1 y1 x2 y2 t : Int) (v fuel : Nat) :
    (t < 0 → thick_line w h buf x1 y1 x2 y2 t v fuel = .ok buf) ∧
    (t = 1 → thick_line w h buf x1 y1 x2 y2 t v fuel =
      line w h buf x1 y1 x2 y2 v fuel) := by
  constructor
  · intro ht
    unfold thick_line
    rw [if_pos ht]
  · intro ht
    unfold thick_line
    rw [if_neg (by omega), if_pos ht]

/-- Witness for C6 at concrete thicknesses `-2` and `1`. -/
theorem C6_thick_line_guards_witness :
    ((-2 : Int) < 0 ∧
      thick_line 2 2 [0, 0, 0, 0] 0 0 1 1 (-2) 9 10 = .ok [0, 0, 0, 0]) ∧
    ((1 : Int) = 1 ∧
      thick_line 2 2 [0, 0, 0, 0] 0 0 1 1 1 9 10 =
        line 2 2 [0, 0, 0, 0] 0 0 1 1 9 10) :=
  ⟨⟨by decide,
    (C6_thick_line_guards 2 2 [0, 0, 0, 0] 0 0 1 1 (-2) 9 10).1 (by decide)⟩,
   ⟨rfl, (C6_thick_line_guards 2 2 [0, 0, 0, 0] 0 0 1 1 1 9 10).2 rfl⟩⟩

/-- C7: `fill_rect` with negative width/height is not a no-op.  On an 8×8
zero canvas, `fill_rect(13, 13, -2, -2, 5)` writes pixel `(7,7)`
(index 63): `clamp_rect_i32` clamps `from_x` to `width-1 = 7` and then
clamps `to_x = x+w = 11` to at least `from_x`, producing the non-empty
span `[7, 8)` on row 7. -/
theorem C7_fill_rect_negative_size_writes :
    fill_rect 8 8 (List.replicate 64 0) 13 13 (-2) (-2) 5 =
      .ok (List.replicate 63 0 ++ [5]) ∧
    List.replicate 63 0 ++ [5] ≠ List.replicate 64 (0 : Nat) :=
  ⟨rfl, by decide⟩

/-- C8 counterexample: constructing a canvas from storage of length 10
with `width = 4, height = 3` does not return a recoverable `SizeMismatch`
error — `Canvas::new` uses `assert!(buffer.len() == width * height)`,
which aborts (panics). -/
theorem C8_assert_not_error_counterexample :
    canvas_new (List.replicate 10 0) 4 3 = .panicked ∧
    canvas_new (List.replicate 10 0) 4 3 ≠ .errSizeMismatch :=
  ⟨rfl, by decide⟩

/-- C8 (amended): `Canvas::new` panics (asserts) exactly when the storage
length differs from `width*height`, and succeeds with the given storage
and dimensions when they agree; no recoverable error value is ever
returned. -/
theorem C8_canvas_new_behavior (buffer : List Nat) (width height : Nat) :
    (buffer.length ≠ width * height →
      canvas_new buffer width height = .panicked) ∧
    (buffer.length = width * height →
      canvas_new buffer width height = .ok ⟨buffer, width, height⟩) := by
  constructor
  · intro hne
    unfold canvas_new
    rw [if_neg hne]
  · intro he
    unfold canvas_new
    rw [if_pos he]

/-- Witness for C8 at storage lengths 10 (mismatch) and 12 (match). -/
theorem C8_canvas_new_behavior_witness :
    ((List.replicate 10 (0 : Nat)).length ≠ 4 * 3 ∧
      canvas_new (List.replicate 10 0) 4 3 = .panicked) ∧
    ((List.replicate 12 (0 : Nat)).length = 4 * 3 ∧
      canvas_new (List.replicate 12 0) 4 3 =
        .ok ⟨List.replicate 12 0, 4, 3⟩) :=
  ⟨⟨by decide, (C8_canvas_new_behavior (List.replicate 10 0) 4 3).1 (by decide)⟩,
   ⟨by decide, (C8_canvas_new_behavior (List.replicate 12 0) 4 3).2 (by decide)⟩⟩

/-- C9: the encoder does not emit exactly `width*height*3` data bytes.
For the single-pixel buffer `[0x123456]` (width = height = 1) the claim
demands `11 + 3 = 14` bytes (header plus one RGB triple), but the encoder
writes the full 6144-byte temporary chunk buffer, 6155 bytes in total:
after the RGB triple of the only pixel come 6141 padding zeros. -/
theorem C9_encoder_pads_partial_chunk :
    (encode_buffer [1193046] 1 1).length = 6155 ∧
    (ppmHeader 1 1).length + 3 * (1 * 1) = 14 ∧
    (encode_buffer [1193046] 1 1).take 17 =
      [80, 54, 32, 49, 32, 49, 32, 50, 53, 53, 10, 18, 52, 86, 0, 0, 0] := by
  refine ⟨?_, rfl, rfl⟩
  rw [encode_buffer, show chunks2048 [1193046] = [[1193046]] from rfl]
  rw [show encodeChunks [[1193046]] (List.replicate 6144 0) =
      writeInto (List.replicate 6144 0) ([1193046].flatMap pixelRGB) ++ []
    from rfl]
  rw [List.length_append, List.length_append, writeInto, List.length_append,
      List.length_drop, List.length_replicate]
  rfl

/-- C10: `flood_fill` with a target coordinate outside
`[0,width) × [0,height)` (including negative coordinates) returns the
buffer unchanged and cannot fail. -/
theorem C10_flood_fill_oob_noop (w h : Nat) (buf : List Nat) (x y : Int)
    (v fuel : Nat)
    (hout : x < 0 ∨ (w : Int) ≤ x ∨ y < 0 ∨ (h : Int) ≤ y) :
    flood_fill w h buf x y v fuel = .ok buf := by
  have hcw := clamped_width_le w
  have hch := clamped_height_le h
  unfold flood_fill
  rw [if_neg (by
    intro hg
    obtain ⟨h1, h2, h3, h4⟩ := hg
    omega)]

/-- Witness for C10 at `(x, y) = (-1, 0)` on a 2×2 canvas. -/
theorem C10_flood_fill_oob_noop_witness :
    ((-1 : Int) < 0 ∨ (2 : Int) ≤ -1 ∨ (0 : Int) < 0 ∨ (2 : Int) ≤ 0) ∧
    flood_fill 2 2 [1, 2, 3, 4] (-1) 0 9 5 = .ok [1, 2, 3, 4] :=
  ⟨by decide, C10_flood_fill_oob_noop 2 2 [1, 2, 3, 4] (-1) 0 9 5 (by decide)⟩

/-- C3 counterexample: Bresenham is not symmetric in its endpoints.  On a
3×2 canvas, the line `(0,0)–(2,1)` writes pixels `{(0,0), (1,1), (2,1)}`
while `(2,1)–(0,0)` writes `{(0,0), (1,0), (2,1)}`. -/
theorem C3_line_symmetry_counterexample :
    line 3 2 (List.replicate 6 0) 0 0 2 1 9 10 = .ok [9, 0, 0, 0, 9, 9] ∧
    line 3 2 (List.replicate 6 0) 2 1 0 0 9 10 = .ok [9, 9, 0, 0, 0, 9] ∧
    ([9, 0, 0, 0, 9, 9] : List Nat) ≠ [9, 9, 0, 0, 0, 9] :=
  ⟨rfl, rfl, by decide⟩

/-- C3 (amended): the endpoint-symmetry law holds for axis-aligned lines
(vertical or horizontal segments whose coordinates are `i32` values with
span below `2^30`, so that no `i32` operation of the walk wraps, and with
enough fuel); the general Bresenham walk is not symmetric (see the
counterexample). -/
theorem C3_line_symmetry_axis_aligned (w h : Nat) (buf : List Nat)
    (hlen : buf.length = w * h) (x1 y1 x2 y2 : Int) (v fuel : Nat) :
    (x1 = x2 → -2 ^ 31 ≤ y1 → y1 < 2 ^ 31 → -2 ^ 31 ≤ y2 → y2 < 2 ^ 31 →
      |y2 - y1| < 2 ^ 30 → |y2 - y1| < (fuel : Int) →
      line w h buf x1 y1 x2 y2 v fuel = line w h buf x2 y2 x1 y1 v fuel) ∧
    (y1 = y2 → -2 ^ 31 ≤ x1 → x1 < 2 ^ 31 → -2 ^ 31 ≤ x2 → x2 < 2 ^ 31 →
      |x2 - x1| < 2 ^ 30 → |x2 - x1| < (fuel : Int) →
      line w h buf x1 y1 x2 y2 v fuel = line w h buf x2 y2 x1 y1 v fuel) := by
  constructor
  · rintro rfl h1r h1l h2r h2l hs hf
    obtain ⟨hsa, hsb⟩ := abs_lt.mp hs
    obtain ⟨hfa, hfb⟩ := abs_lt.mp hf
    rcases lt_trichotomy y1 y2 with hlt | heq | hlt
    · rw [line_vert_eval hlen x1 y1 y2 v fuel (by omega) h1r h2l (by omega)
        (by omega)]
      rw [line_vert_eval_down hlen x1 y2 y1 v fuel (by omega) h2l h1r
        (by omega) (by omega)]
      rw [colPaintDown_eq_up w h v x1 ((y2 - y1).toNat) buf y2]
      rw [show y2 - (((y2 - y1).toNat : Nat) : Int) = y1 from by omega]
    · rw [heq]
    · rw [line_vert_eval_down hlen x1 y1 y2 v fuel (by omega) h1l h2r
        (by omega) (by omega)]
      rw [line_vert_eval hlen x1 y2 y1 v fuel (by omega) h2r h1l (by omega)
        (by omega)]
      rw [colPaintDown_eq_up w h v x1 ((y1 - y2).toNat) buf y1]
      rw [show y1 - (((y1 - y2).toNat : Nat) : Int) = y2 from by omega]
  · rintro rfl h1r h1l h2r h2l hs hf
    obtain ⟨hsa, hsb⟩ := abs_lt.mp hs
    obtain ⟨hfa, hfb⟩ := abs_lt.mp hf
    rcases lt_trichotomy x1 x2 with hlt | heq | hlt
    · rw [line_horiz_eval hlen y1 x1 x2 v fuel (by omega) h1r h2l (by omega)
        (by omega)]
      rw [line_horiz_eval_down hlen y1 x2 x1 v fuel (by omega) h2l h1r
        (by omega) (by omega)]
      rw [rowPaintDown_eq_up w h v y1 ((x2 - x1).toNat) buf x2]
      rw [show x2 - (((x2 - x1).toNat : Nat) : Int) = x1 from by omega]
    · rw [heq]
    · rw [line_horiz_eval_down hlen y1 x1 x2 v fuel (by omega) h1l h2r
        (by omega) (by omega)]
      rw [line_horiz_eval hlen y1 x2 x1 v fuel (by omega) h2r h1l (by omega)
        (by omega)]
      rw [rowPaintDown_eq_up w h v y1 ((x1 - x2).toNat) buf x1]
      rw [show x1 - (((x1 - x2).toNat : Nat) : Int) = x2 from by omega]

/-- Witness for C3 (amended) on a vertical segment `(1,0)–(1,1)` of a 2×2
canvas. -/
theorem C3_line_symmetry_axis_aligned_witness :
    ([0, 0, 0, 0] : List Nat).length = 2 * 2 ∧ (1 : Int) = 1 ∧
    |(1 : Int) - 0| < 2 ^ 30 ∧ |(1 : Int) - 0| < ((5 : Nat) : Int) ∧
    line 2 2 [0, 0, 0, 0] 1 0 1 1 9 5 = line 2 2 [0, 0, 0, 0] 1 1 1 0 9 5 :=
  ⟨rfl, rfl, by norm_num, by norm_num,
   (C3_line_symmetry_axis_aligned 2 2 [0, 0, 0, 0] rfl 1 0 1 1 9 5).1 rfl
     (by norm_num) (by norm_num) (by norm_num) (by norm_num) (by norm_num)
     (by norm_num)⟩

end Vason







